import Mathlib

/-!
Verification development for the rWeb repository (LXMF HTML server and
browser client).  The Python string operations the code relies on are
embedded as executable functions on `List Char` / `String`, the server's
serve path and the client's cache, correlator, parser and discovery logic
are translated into pure functions, and the spec-level claims are settled
as theorems about those functions.
-/

namespace RWeb

/-- Characters treated as whitespace by Python's default `str.strip`
(ASCII subset: space, tab, newline, carriage return, vertical tab, form feed). -/
def isPySpace (c : Char) : Bool :=
  c = ' ' || c = '\t' || c = '\n' || c = '\x0d' || c = '\x0b' || c = '\x0c'

/-- Python `str.strip()` on character lists: drop whitespace from both ends. -/
def stripChars (l : List Char) : List Char :=
  ((l.dropWhile isPySpace).reverse.dropWhile isPySpace).reverse

/-- Python `str.strip()`. -/
def pyStrip (s : String) : String := ⟨stripChars s.data⟩

/-- Python `str.lower()` (ASCII letters; the repository only lowers ASCII data). -/
def pyLower (s : String) : String := ⟨s.data.map Char.toLower⟩

/-- Python `needle in haystack` substring test on character lists. -/
def containsChars (needle : List Char) : List Char → Bool
  | [] => needle.isEmpty
  | c :: t => needle.isPrefixOf (c :: t) || containsChars needle t

/-- Python `needle in haystack` substring test. -/
def pyContains (hay needle : String) : Bool := containsChars needle.data hay.data

/-- Python `haystack.startswith(p)`. -/
def pyStartsWith (hay p : String) : Bool := p.data.isPrefixOf hay.data

/-- Python `haystack.endswith(p)`. -/
def pyEndsWith (hay p : String) : Bool := p.data.reverse.isPrefixOf hay.data.reverse

/-- Left-to-right scanner behind Python `str.replace`; the fuel (first
`Nat`) only bounds the recursion and is in excess of the input length at
every call, so it never runs out. -/
def replaceGo (old new : List Char) : Nat → List Char → List Char
  | _, [] => []
  | 0, l => l
  | fuel + 1, c :: t =>
    if !old.isEmpty && old.isPrefixOf (c :: t) then
      new ++ replaceGo old new fuel (List.drop old.length (c :: t))
    else
      c :: replaceGo old new fuel t

/-- Python `str.replace(old, new)` on character lists: replace every
non-overlapping occurrence of `old`, scanning left to right.  (The
repository never calls `replace` with an empty `old`; on an empty `old`
this model leaves the string unchanged.) -/
def replaceChars (old new l : List Char) : List Char := replaceGo old new l.length l

/-- Python `str.replace(old, new)`. -/
def pyReplace (s old new : String) : String := ⟨replaceChars old.data new.data s.data⟩

/-- Fueled scanner behind `countChars`. -/
def countGo (old : List Char) : Nat → List Char → Nat
  | _, [] => 0
  | 0, _ => 0
  | fuel + 1, c :: t =>
    if !old.isEmpty && old.isPrefixOf (c :: t) then
      countGo old fuel (List.drop old.length (c :: t)) + 1
    else
      countGo old fuel t

/-- Python `haystack.count(needle)`: number of non-overlapping occurrences,
scanning left to right. -/
def countChars (old l : List Char) : Nat := countGo old l.length l

/-- Python `haystack.count(needle)`. -/
def pyCount (s needle : String) : Nat := countChars needle.data s.data

/-- Fueled scanner behind `splitChars`. -/
def splitGo (sep : List Char) : Nat → List Char → List (List Char)
  | _, [] => [[]]
  | 0, l => [l]
  | fuel + 1, c :: t =>
    if !sep.isEmpty && sep.isPrefixOf (c :: t) then
      [] :: splitGo sep fuel (List.drop sep.length (c :: t))
    else
      match splitGo sep fuel t with
      | [] => [[c]]
      | p :: rest => (c :: p) :: rest

/-- Python `s.split(sep)` (separator non-empty) on character lists: the
pieces between non-overlapping occurrences of `sep`, scanning left to
right; always returns at least one (possibly empty) piece. -/
def splitChars (sep l : List Char) : List (List Char) := splitGo sep l.length l

/-- Python `s.split(sep, 1)` on character lists: `none` when `sep` does not
occur, otherwise the part before and the part after the first occurrence. -/
def splitOnceChars (sep : List Char) : List Char → Option (List Char × List Char)
  | [] => if sep.isEmpty then some ([], []) else none
  | c :: t =>
    if sep.isPrefixOf (c :: t) then
      some ([], List.drop sep.length (c :: t))
    else
      match splitOnceChars sep t with
      | none => none
      | some (a, b) => some (c :: a, b)

/-- Python `sep.join(pieces)` on character lists. -/
def joinWith (sep : List Char) : List (List Char) → List Char
  | [] => []
  | [p] => p
  | p :: ps@(_ :: _) => p ++ sep ++ joinWith sep ps

/-- Python `os.path.basename` (POSIX): everything after the last `/`. -/
def basenameChars (l : List Char) : List Char :=
  (l.reverse.takeWhile (fun c => c != '/')).reverse

/-- Python `os.path.basename` (POSIX). -/
def pyBasename (s : String) : String := ⟨basenameChars s.data⟩

/-- The extension component of Python `os.path.splitext` for a slash-free
name: the part from the last dot on, provided some non-dot character
occurs before that dot (so `".bashrc"` and `".."` have no extension). -/
def splitextExtChars (l : List Char) : List Char :=
  let r := l.reverse
  match r.dropWhile (fun c => c != '.') with
  | [] => []
  | _ :: pre =>
    if pre.any (fun c => c != '.') then
      '.' :: (r.takeWhile (fun c => c != '.')).reverse
    else
      []

/-- The extension component of Python `os.path.splitext`. -/
def splitextExt (s : String) : String := ⟨splitextExtChars s.data⟩

/-! Server-side content engine (rWeb_server.py, class LXMFHTMLServer).
Files are modelled as an association list from slash-free filenames to
contents (a `String` standing for the file's bytes); sizes are content
lengths. -/

/-- Supported file extensions with their MIME types
(`LXMFHTMLServer.supported_extensions`). -/
def supported_extensions : List (String × String) :=
  [(".html", "text/html"), (".htm", "text/html"),
   (".txt", "text/plain"), (".md", "text/markdown"),
   (".jpg", "image/jpeg"), (".jpeg", "image/jpeg"),
   (".png", "image/png"), (".gif", "image/gif"),
   (".bmp", "image/bmp"), (".webp", "image/webp"),
   (".zip", "application/zip"), (".rar", "application/x-rar-compressed"),
   (".7z", "application/x-7z-compressed"),
   (".pdf", "application/pdf")]

/-- Test used by `_get_page_list`: the lowered extension is a key of
`supported_extensions`. -/
def isSupportedExt (filename : String) : Bool :=
  (supported_extensions.map (fun e => e.1)).contains (pyLower (splitextExt filename))

/-- Embedding of `LXMFHTMLServer._get_page_list`: keep the directory
entries with a supported extension and sort them (Python `sorted`,
ascending lexicographic string order). -/
def getPageList (entries : List String) : List String :=
  List.insertionSort (fun a b => a ≤ b) (entries.filter (fun f => isSupportedExt f))

/-- Icon table of `LXMFHTMLServer._get_file_icon` (Unicode terminal). -/
def fileIconTable : List (String × String) :=
  [(".html", "🌐"), (".htm", "🌐"),
   (".txt", "📝"), (".md", "📝"),
   (".jpg", "🖼️"), (".jpeg", "🖼️"), (".png", "🖼️"),
   (".gif", "🖼️"), (".bmp", "🖼️"), (".webp", "🖼️"),
   (".pdf", "📄"),
   (".zip", "📦"), (".rar", "📦"), (".7z", "📦")]

/-- Embedding of `LXMFHTMLServer._get_file_icon`. -/
def fileIcon (filename : String) : String :=
  (((fileIconTable.find? (fun e => e.1 == pyLower (splitextExt filename)))).map
    (fun e => e.2)).getD "📄"

/-- Embedding of `LXMFHTMLServer._get_mime_type`. -/
def getMimeType (filename : String) : String :=
  (((supported_extensions.find? (fun e => e.1 == pyLower (splitextExt filename)))).map
    (fun e => e.2)).getD "application/octet-stream"

/-- A pages directory: filenames mapped to file contents. -/
abbrev FileStore := List (String × String)

/-- Contents of a file in the pages directory, if present
(model of opening/reading `pages/<name>`). -/
def lookupFile (store : FileStore) (name : String) : Option String :=
  ((store.find? (fun e => e.1 == name))).map (fun e => e.2)

/-- Size in bytes of a file of the pages directory
(model of `os.path.getsize`; `0` for a missing file). -/
def fileSize (store : FileStore) (name : String) : Nat :=
  ((lookupFile store name).getD "").length

/-- Model of `os.path.exists(os.path.join(pages_path, name))` for a
slash-free `name`: true for a regular file of the pages directory and for
the special entries `.` (the pages directory itself) and `..` (its
parent), which exist on every POSIX filesystem but are directories. -/
def pathExistsInPages (store : FileStore) (name : String) : Bool :=
  name == "." || name == ".." || store.any (fun e => e.1 == name)

/-- Thousands-separated decimal rendering, Python's format spec `{:,}`. -/
def commaGroupAux : List Char → List Char
  | a :: b :: c :: rest@(_ :: _) => a :: b :: c :: ',' :: commaGroupAux rest
  | l => l

/-- Thousands-separated decimal rendering, Python's format spec `{:,}`. -/
def commaGroup (n : Nat) : String :=
  ⟨(commaGroupAux (toString n).data.reverse).reverse⟩

/-- Rounded decimal rendering of `num / den` with `digits` fractional
digits (model of Python's float format `:.1f` / `:.2f`; the rational
value is rounded half-to-even, which agrees with CPython except on
double-rounding corner cases that the claims do not depend on). -/
def roundedDiv (num den digits : Nat) : String :=
  let p := 10 ^ digits
  let q := num * p
  let r := q / den
  let rem := q % den
  let r :=
    if 2 * rem > den then r + 1
    else if 2 * rem < den then r
    else if r % 2 = 0 then r else r + 1
  let frac := toString (r % p)
  let frac := String.mk (List.replicate (digits - frac.length) '0') ++ frac
  toString (r / p) ++ "." ++ frac

/-- Size string used by `LXMFHTMLServer._send_file`. -/
def fileSizeStr (n : Nat) : String :=
  if n < 1024 then commaGroup n ++ " bytes"
  else if n < 1024 * 1024 then roundedDiv n 1024 1 ++ " KB"
  else roundedDiv n (1024 * 1024) 2 ++ " MB"

/-- Size string used inside `_generate_dynamic_index`. -/
def indexSizeStr (n : Nat) : String :=
  if n < 1024 then commaGroup n ++ " bytes" else roundedDiv n 1024 1 ++ " KB"

/-- Size string used inside `_generate_text_index`. -/
def textSizeStr (n : Nat) : String :=
  if n < 1024 then commaGroup n ++ "B" else roundedDiv n 1024 1 ++ "KB"

/-- Unicode icon table of `TerminalUI.icon`. -/
def uiIcon (name : String) : String :=
  ((([("server", "🖥️ "), ("online", "🟢"), ("offline", "⚫"),
      ("page", "📄"), ("request", "📨"), ("response", "📤"),
      ("error", "❌"), ("info", "ℹ️ "), ("success", "✅"),
      ("warning", "⚠️ "), ("network", "🌐"), ("interface", "🔌"),
      ("path", "🛤️ "), ("time", "🕐"), ("stats", "📊")].find?
        (fun e => e.1 == name))).map (fun e => e.2)).getD ""

/-- Embedding of `LXMFHTMLServer._process_template`: substitute the
`timestamp`, `page_list` and `page_count` placeholders (in that order)
by literal string replacement. -/
def processTemplate (now : String) (store : FileStore) (html : String) : String :=
  let files := getPageList (store.map (fun e => e.1))
  let links := files.map (fun f =>
    "<a href=\"" ++ f ++ "\">" ++ fileIcon f ++ " " ++ f ++ "</a>")
  let page_list := String.intercalate "<br>\n" links
  pyReplace
    (pyReplace
      (pyReplace html "\x7b\x7btimestamp\x7d\x7d" now)
      "\x7b\x7bpage_list\x7d\x7d" page_list)
    "\x7b\x7bpage_count\x7d\x7d" (toString files.length)

/-- Entry markup for one file in the dynamic index (`item_html` inside
`_generate_dynamic_index`). -/
def indexItemHtml (filename icon size_str : String) : String :=
  "                <li class=\"file-item\">\n"
  ++ "                    <a href=\"" ++ filename ++ "\" class=\"file-link\">"
  ++ icon ++ " " ++ filename ++ "</a>\n"
  ++ "                    <div class=\"file-info\">Size: " ++ size_str ++ "</div>\n"
  ++ "                </li>"

/-- Category of a lowered extension in `_generate_dynamic_index`'s grouping. -/
def groupOfExt (ext : String) : Option String :=
  if ext = ".html" ∨ ext = ".htm" then some "HTML Pages"
  else if ext = ".txt" ∨ ext = ".md" then some "Text Files"
  else if ext = ".jpg" ∨ ext = ".jpeg" ∨ ext = ".png" ∨ ext = ".gif"
          ∨ ext = ".bmp" ∨ ext = ".webp" then some "Images"
  else if ext = ".pdf" then some "Documents"
  else if ext = ".zip" ∨ ext = ".rar" ∨ ext = ".7z" then some "Archives"
  else none

/-- Fixed heading order of the dynamic index's groups. -/
def groupNames : List String :=
  ["HTML Pages", "Text Files", "Images", "Documents", "Archives"]

/-- Item markup collected for one group, in file order. -/
def groupItems (store : FileStore) (files : List String) (g : String) : List String :=
  (files.filter (fun f => groupOfExt (pyLower (splitextExt f)) == some g)).map
    (fun f => indexItemHtml f (fileIcon f) (indexSizeStr (fileSize store f)))

/-- Section markup for one non-empty group (`sections_html` accumulation). -/
def indexSectionHtml (group_name : String) (items : List String) : String :=
  "\n"
  ++ "        <div class=\"file-group\">\n"
  ++ "            <h3>" ++ group_name ++ " (" ++ toString items.length ++ ")</h3>\n"
  ++ "            <ul class=\"file-list\">\n"
  ++ String.join items ++ "\n"
  ++ "            </ul>\n"
  ++ "        </div>"

/-- Concatenated sections of the dynamic index, in the fixed group order,
skipping empty groups. -/
def sectionsHtml (store : FileStore) (files : List String) : String :=
  String.join (groupNames.map (fun g =>
    let items := groupItems store files g
    if items.isEmpty then "" else indexSectionHtml g items))

/-- Embedding of `LXMFHTMLServer._generate_dynamic_index`; `now` is the
formatted current local time. -/
def dynamicIndexHtml (now : String) (store : FileStore) : String :=
  let files := getPageList (store.map (fun e => e.1))
  "<!DOCTYPE html>\n"
  ++ "<html>\n"
  ++ "<head>\n"
  ++ "    <meta charset=\"UTF-8\">\n"
  ++ "    <meta name=\"viewport\" content=\"width=device-width, initial-scale=1.0\">\n"
  ++ "    <title>LXMF HTML Server - Index</title>\n"
  ++ "    <style>\n"
  ++ "        * \x7b margin: 0; padding: 0; box-sizing: border-box; \x7d\n"
  ++ "        body \x7b\n"
  ++ "            font-family: \x27Courier New\x27, monospace;\n"
  ++ "            background: linear-gradient(135deg, #0a0a0a 0%, #1a1a2e 100%);\n"
  ++ "            color: #0f0;\n"
  ++ "            padding: 20px;\n"
  ++ "            min-height: 100vh;\n"
  ++ "        \x7d\n"
  ++ "        .container \x7b\n"
  ++ "            max-width: 900px;\n"
  ++ "            margin: 0 auto;\n"
  ++ "            background: rgba(0, 0, 0, 0.8);\n"
  ++ "            border: 2px solid #0f0;\n"
  ++ "            border-radius: 10px;\n"
  ++ "            padding: 30px;\n"
  ++ "            box-shadow: 0 0 30px rgba(0, 255, 0, 0.3);\n"
  ++ "        \x7d\n"
  ++ "        h1 \x7b\n"
  ++ "            color: #0f0;\n"
  ++ "            text-align: center;\n"
  ++ "            margin-bottom: 10px;\n"
  ++ "            font-size: 2em;\n"
  ++ "            text-shadow: 0 0 10px #0f0;\n"
  ++ "        \x7d\n"
  ++ "        .subtitle \x7b\n"
  ++ "            text-align: center;\n"
  ++ "            color: #0ff;\n"
  ++ "            margin-bottom: 30px;\n"
  ++ "            opacity: 0.8;\n"
  ++ "        \x7d\n"
  ++ "        .info \x7b\n"
  ++ "            background: rgba(0, 255, 0, 0.1);\n"
  ++ "            border-left: 3px solid #0f0;\n"
  ++ "            padding: 15px;\n"
  ++ "            margin: 20px 0;\n"
  ++ "            border-radius: 5px;\n"
  ++ "        \x7d\n"
  ++ "        .info h2 \x7b\n"
  ++ "            color: #0ff;\n"
  ++ "            margin-bottom: 10px;\n"
  ++ "            font-size: 1.2em;\n"
  ++ "        \x7d\n"
  ++ "        .file-group \x7b\n"
  ++ "            margin: 25px 0;\n"
  ++ "        \x7d\n"
  ++ "        .file-group h3 \x7b\n"
  ++ "            color: #0ff;\n"
  ++ "            margin-bottom: 10px;\n"
  ++ "            padding-bottom: 5px;\n"
  ++ "            border-bottom: 1px solid #0f0;\n"
  ++ "        \x7d\n"
  ++ "        .file-list \x7b\n"
  ++ "            list-style: none;\n"
  ++ "            padding: 0;\n"
  ++ "        \x7d\n"
  ++ "        .file-item \x7b\n"
  ++ "            background: rgba(0, 255, 255, 0.1);\n"
  ++ "            margin: 8px 0;\n"
  ++ "            padding: 12px;\n"
  ++ "            border-radius: 5px;\n"
  ++ "            transition: all 0.3s;\n"
  ++ "        \x7d\n"
  ++ "        .file-item:hover \x7b\n"
  ++ "            background: rgba(0, 255, 255, 0.2);\n"
  ++ "            transform: translateX(5px);\n"
  ++ "        \x7d\n"
  ++ "        .file-link \x7b\n"
  ++ "            color: #0ff;\n"
  ++ "            text-decoration: none;\n"
  ++ "            font-size: 1.1em;\n"
  ++ "            display: block;\n"
  ++ "        \x7d\n"
  ++ "        .file-link:hover \x7b\n"
  ++ "            color: #0f0;\n"
  ++ "            text-shadow: 0 0 5px #0ff;\n"
  ++ "        \x7d\n"
  ++ "        .file-info \x7b\n"
  ++ "            color: #888;\n"
  ++ "            font-size: 0.85em;\n"
  ++ "            margin-top: 5px;\n"
  ++ "        \x7d\n"
  ++ "        .footer \x7b\n"
  ++ "            text-align: center;\n"
  ++ "            margin-top: 30px;\n"
  ++ "            padding-top: 20px;\n"
  ++ "            border-top: 1px solid #0f0;\n"
  ++ "            color: #888;\n"
  ++ "            font-size: 0.9em;\n"
  ++ "        \x7d\n"
  ++ "        @keyframes pulse \x7b\n"
  ++ "            0%, 100% \x7b opacity: 1; \x7d\n"
  ++ "            50% \x7b opacity: 0.5; \x7d\n"
  ++ "        \x7d\n"
  ++ "        .pulse \x7b animation: pulse 2s infinite; \x7d\n"
  ++ "        .status-indicator \x7b\n"
  ++ "            display: inline-block;\n"
  ++ "            width: 10px;\n"
  ++ "            height: 10px;\n"
  ++ "            background: #0f0;\n"
  ++ "            border-radius: 50%;\n"
  ++ "            margin-right: 8px;\n"
  ++ "        \x7d\n"
  ++ "    </style>\n"
  ++ "</head>\n"
  ++ "<body>\n"
  ++ "    <div class=\"container\">\n"
  ++ "        <h1>📡 LXMF HTML Server</h1>\n"
  ++ "        <div class=\"subtitle\">Decentralized Web Over Mesh Networks</div>\n"
  ++ "        \n"
  ++ "        <div class=\"info\">\n"
  ++ "            <h2>🌐 Server Information</h2>\n"
  ++ "            <p><span class=\"status-indicator pulse\"></span><strong>Status:</strong> ONLINE</p>\n"
  ++ "            <p><strong>Time:</strong> " ++ now ++ "</p>\n"
  ++ "            <p><strong>Total Files:</strong> " ++ toString files.length ++ "</p>\n"
  ++ "            <p><strong>Protocol:</strong> LXMF over Reticulum</p>\n"
  ++ "        </div>\n"
  ++ "        \n"
  ++ "        <div class=\"info\">\n"
  ++ "            <h2>📚 Available Files</h2>\n"
  ++ sectionsHtml store files ++ "\n"
  ++ "        </div>\n"
  ++ "        \n"
  ++ "        <div class=\"info\">\n"
  ++ "            <h2>💡 Usage</h2>\n"
  ++ "            <p>Click any file link above to view/download, or send manual requests:</p>\n"
  ++ "            <p style=\"margin-top: 10px; font-family: monospace; background: rgba(0,0,0,0.5); padding: 10px; border-radius: 3px;\">\n"
  ++ "                GET:&lt;filename&gt;<br>\n"
  ++ "                Example: GET:about.html\n"
  ++ "            </p>\n"
  ++ "        </div>\n"
  ++ "        \n"
  ++ "        <div class=\"footer\">\n"
  ++ "            Powered by Standalone LXMF HTML Server<br>\n"
  ++ "            Reticulum Network Stack\n"
  ++ "        </div>\n"
  ++ "    </div>\n"
  ++ "</body>\n"
  ++ "</html>"

/-- Embedding of `LXMFHTMLServer._generate_text_index`. -/
def textIndex (store : FileStore) : String :=
  let files := getPageList (store.map (fun e => e.1))
  if files.isEmpty then "No files available"
  else
    uiIcon "page" ++ " Available Files (" ++ toString files.length ++ "):\n\n"
    ++ String.join (files.mapIdx (fun i f =>
        "  [" ++ toString (i + 1) ++ "] " ++ fileIcon f ++ " " ++ f
        ++ " (" ++ textSizeStr (fileSize store f) ++ ")\n"))
    ++ "\n" ++ uiIcon "info" ++ " To view a file, send: GET:<filename>\n"
    ++ "Example: GET:" ++ (files.headD "") ++ "\n"
    ++ "Send \x27list\x27 or \x27pages\x27 to see this index again"

/-- Embedding of the 404 page built inside `LXMFHTMLServer._serve_page`. -/
def error404Html (page_name : String) : String :=
  "<!DOCTYPE html>\n"
  ++ "    <html>\n"
  ++ "    <head>\n"
  ++ "        <meta charset=\"UTF-8\">\n"
  ++ "        <title>404 Not Found</title>\n"
  ++ "        <style>\n"
  ++ "            body \x7b\n"
  ++ "                font-family: monospace;\n"
  ++ "                background: #1a1a1a;\n"
  ++ "                color: #f00;\n"
  ++ "                padding: 50px;\n"
  ++ "                text-align: center;\n"
  ++ "            \x7d\n"
  ++ "            h1 \x7b font-size: 3em; text-shadow: 0 0 10px #f00; \x7d\n"
  ++ "            a \x7b\n"
  ++ "                color: #0ff;\n"
  ++ "                text-decoration: none;\n"
  ++ "                margin-top: 20px;\n"
  ++ "                display: inline-block;\n"
  ++ "                padding: 10px 20px;\n"
  ++ "                border: 1px solid #0ff;\n"
  ++ "                border-radius: 5px;\n"
  ++ "            \x7d\n"
  ++ "            a:hover \x7b\n"
  ++ "                background: rgba(0, 255, 255, 0.2);\n"
  ++ "            \x7d\n"
  ++ "        </style>\n"
  ++ "    </head>\n"
  ++ "    <body>\n"
  ++ "        <h1>404 - File Not Found</h1>\n"
  ++ "        <p>The requested file \x27" ++ page_name ++ "\x27 does not exist.</p>\n"
  ++ "        <a href=\"index\">← Back to Index</a>\n"
  ++ "    </body>\n"
  ++ "    </html>"

/-- An outbound message produced while serving a request: HTML content in
field `FIELD_HTML_CONTENT = 10` together with the message body text, a
file attachment in field `FIELD_FILE_ATTACHMENTS = 2` together with the
body text, or a plain text message. -/
inductive Response where
  | html (body text : String)
  | file (name data text : String)
  | plain (body : String)
deriving DecidableEq, Repr

/-- Body text of a response message (the `LXMessage` content). -/
def Response.msgText : Response → String
  | .html _ t => t
  | .file _ _ t => t
  | .plain b => b

/-- Observable effects of one `_serve_page` call: the messages handed to
the router, the access-log entries written as `(page, success)` pairs,
the amount added to `requests_served`, and the return value. -/
structure ServeOutcome where
  responses : List Response
  log : List (String × Bool)
  counterInc : Nat
  ok : Bool
deriving DecidableEq, Repr

/-- Page names treated as index requests by `_serve_page` (after lowering). -/
def indexAliases : List String := ["index", "_index", "_list", "list", ""]

/-- Rendering of one access-log line (`LXMFHTMLServer._log_access`). -/
def logLine (timestamp sender_pretty page : String) (success : Bool) : String :=
  "[" ++ timestamp ++ "] " ++ sender_pretty ++ " requested \x27" ++ page
  ++ "\x27 - " ++ (if success then "SUCCESS" else "FAILED") ++ "\n"

/-- Embedding of `LXMFHTMLServer._serve_page`.  The request is reduced to
its basename; index aliases receive the dynamic HTML index plus the text
index (logged as `INDEX`, no counter increment); a missing path receives
the 404 page (logged FAILED, no counter increment); an `.html`/`.htm`
file is templated and sent as HTML; any other existing path is handed to
`_send_file`.  For the directory entries `.` and `..` the path exists but
`_send_file`'s `open` fails and is swallowed inside `_send_file`, so no
message is produced while `_serve_page` still logs SUCCESS and increments
the counter. -/
def servePage (now : String) (store : FileStore) (page_name0 : String) : ServeOutcome :=
  let page_name := pyBasename page_name0
  if page_name = "" ∨ (pyLower page_name) ∈ indexAliases then
    { responses := [Response.html (dynamicIndexHtml now store) "File Index",
                    Response.plain (textIndex store)],
      log := [("INDEX", true)], counterInc := 0, ok := true }
  else if pathExistsInPages store page_name then
    let ext := pyLower (splitextExt page_name)
    if ext = ".html" ∨ ext = ".htm" then
      match lookupFile store page_name with
      | some content =>
        { responses := [Response.html (processTemplate now store content)
                          ("Serving: " ++ page_name)],
          log := [(page_name, true)], counterInc := 1, ok := true }
      | none =>
        -- unreadable html file: the surrounding except-block logs FAILED
        { responses := [], log := [(page_name, false)], counterInc := 0, ok := false }
    else
      match lookupFile store page_name with
      | some content =>
        { responses := [Response.file page_name content
                          ("File: " ++ page_name ++ " (" ++ fileSizeStr content.length ++ ")")],
          log := [(page_name, true)], counterInc := 1, ok := true }
      | none =>
        -- "." or "..": a directory; `_send_file` fails internally and
        -- returns False, which `_serve_page` ignores
        { responses := [], log := [(page_name, true)], counterInc := 1, ok := true }
  else
    { responses := [Response.html (error404Html page_name) ("404: " ++ page_name)],
      log := [(page_name, false)], counterInc := 0, ok := false }

/-! Client side (rWeb_client.py, class LXMFHTMLBrowser). -/

/-- The click-interceptor script injected by
`LXMFHTMLBrowser._save_html_file` (`inject_script`), with the originating
server hash spliced in. -/
def injectScript (server_hash : String) : String :=
  "\n"
  ++ "<script>\n"
  ++ "// LXMF Browser - Link Interceptor\n"
  ++ "(function() \x7b\n"
  ++ "    const currentServer = \x27" ++ server_hash ++ "\x27;\n"
  ++ "    \n"
  ++ "    document.addEventListener(\x27DOMContentLoaded\x27, function() \x7b\n"
  ++ "        // Intercept all clicks on links\n"
  ++ "        document.addEventListener(\x27click\x27, function(e) \x7b\n"
  ++ "            let target = e.target;\n"
  ++ "            \n"
  ++ "            // Find the closest <a> tag\n"
  ++ "            while (target && target.tagName !== \x27A\x27) \x7b\n"
  ++ "                target = target.parentElement;\n"
  ++ "            \x7d\n"
  ++ "            \n"
  ++ "            if (target && target.tagName === \x27A\x27) \x7b\n"
  ++ "                const href = target.getAttribute(\x27href\x27);\n"
  ++ "                \n"
  ++ "                // Check if it\x27s a relative link or .html file\n"
  ++ "                if (href && (href.endsWith(\x27.html\x27) || !href.includes(\x27://\x27))) \x7b\n"
  ++ "                    e.preventDefault();\n"
  ++ "                    \n"
  ++ "                    // Extract page name\n"
  ++ "                    let pageName = href;\n"
  ++ "                    if (pageName.startsWith(\x27./\x27)) \x7b\n"
  ++ "                        pageName = pageName.substring(2);\n"
  ++ "                    \x7d\n"
  ++ "                    if (pageName.startsWith(\x27/\x27)) \x7b\n"
  ++ "                        pageName = pageName.substring(1);\n"
  ++ "                    \x7d\n"
  ++ "                    \n"
  ++ "                    // Tell parent window to request this page from LXMF\n"
  ++ "                    window.parent.postMessage(\x7b\n"
  ++ "                        type: \x27lxmf_navigate\x27,\n"
  ++ "                        server: currentServer,\n"
  ++ "                        page: pageName\n"
  ++ "                    \x7d, \x27*\x27);\n"
  ++ "                \x7d\n"
  ++ "            \x7d\n"
  ++ "        \x7d, true);\n"
  ++ "    \x7d);\n"
  ++ "\x7d)();\n"
  ++ "</script>\n"

/-- Embedding of the injection step of `LXMFHTMLBrowser._save_html_file`:
the script is spliced in by `str.replace` before `</head>`, else before
`</body>`, else appended at the end; the result is the text written to
the html cache. -/
def saveHtmlContent (html_content server_hash : String) : String :=
  let inject_script := injectScript server_hash
  if pyContains html_content "</head>" then
    pyReplace html_content "</head>" (inject_script ++ "</head>")
  else if pyContains html_content "</body>" then
    pyReplace html_content "</body>" (inject_script ++ "</body>")
  else
    html_content ++ inject_script

/-- One iteration of the `_parse_page_list` loop: strip the line, check
the `[...]` shape, split once on `]`, strip the remainder, take the part
before `(`, strip it, and append it when non-empty. -/
def parsePageLineStep (pages : List String) (lineChars : List Char) : List String :=
  let line := stripChars lineChars
  if ['['].isPrefixOf line && containsChars [']'] line then
    match splitOnceChars [']'] line with
    | some (_, rest) =>
      let page_info := stripChars rest
      if containsChars ['('] page_info then
        let page_name := stripChars (page_info.takeWhile (fun c => c != '('))
        if page_name.isEmpty then pages else pages ++ [String.mk page_name]
      else pages
    | none => pages
  else pages

/-- Embedding of `LXMFHTMLBrowser._parse_page_list` (the loop appends to
an accumulator in line order). -/
def parsePageList (text : String) : List String :=
  (splitChars ['\n'] text.data).foldl parsePageLineStep []

/-- Definition following the spec's words (§4.5 List Parser): trim the
line; if it begins with `[` and contains `]`, split once on `]`, the
suffix being the page descriptor; if the descriptor contains `(`, the
page name is the trimmed substring before `(`; only non-empty names
count. -/
def specLinePageName (rawLine : String) : Option String :=
  let line := pyStrip rawLine
  if pyStartsWith line "[" && pyContains line "]" then
    match splitOnceChars [']'] line.data with
    | some (_, descriptor) =>
      if containsChars ['('] descriptor then
        let name := pyStrip ⟨descriptor.takeWhile (fun c => c != '(')⟩
        if name = "" then none else some name
      else none
    | none => none
  else none

/-- Recognition test of `HTMLServerAnnounceHandler.received_announce`:
the display name contains `[HTML]` or contains `HTML`. -/
def isHTMLServerName (display_name : String) : Bool :=
  pyContains display_name "[HTML]" || pyContains display_name "HTML"

/-- Presentation name computed by `LXMFHTMLBrowser._handle_discovery`:
strip every `[HTML]` occurrence, trim whitespace, and fall back to
`"Unknown Server"` when the result is empty. -/
def serverDisplayName (display_name : String) : String :=
  let server_name := pyStrip (pyReplace display_name "[HTML]" "")
  if server_name = "" then "Unknown Server" else server_name

/-- Model of the external `RNS.prettyhexrep`: the hex rendering of a
destination hash wrapped in angle brackets (the repository relies on
this: `request_page` and `_request_page_list` strip a leading `<` and a
trailing `>` from hashes taken from the discovery registry). -/
def prettyhexrep (hex : String) : String := "<" ++ hex ++ ">"

/-- One tracked entry of `LXMFHTMLBrowser.pending_requests`. -/
structure PendingEntry where
  ptype : String
  page : Option String
  time : Nat
deriving DecidableEq, Repr

/-- The `pending_requests` dict, keyed by the (normalized) server hash. -/
abbrev PendingMap := List (String × PendingEntry)

/-- Python dict assignment `d[k] = v`: update in place or append. -/
def dictInsert (m : PendingMap) (k : String) (v : PendingEntry) : PendingMap :=
  if m.any (fun e => e.1 == k) then m.map (fun e => if e.1 == k then (k, v) else e)
  else m ++ [(k, v)]

/-- Python `k in d`. -/
def dictContains (m : PendingMap) (k : String) : Bool := m.any (fun e => e.1 == k)

/-- Python `d.get(k)`. -/
def dictFind (m : PendingMap) (k : String) : Option PendingEntry :=
  ((m.find? (fun e => e.1 == k))).map (fun e => e.2)

/-- Python `del d[k]`. -/
def dictErase (m : PendingMap) (k : String) : PendingMap :=
  m.filter (fun e => !(e.1 == k))

/-- Address normalization performed by `LXMFHTMLBrowser.request_page`:
strip surrounding angle brackets, strip a `lxmf://` scheme, split off a
`/page` suffix (used as the page when none was given), and default the
page to `index`. -/
def requestPageTarget (server_hash0 page_name0 : String) : String × String :=
  let s1 := if pyStartsWith server_hash0 "<" && pyEndsWith server_hash0 ">"
            then (⟨(server_hash0.data.drop 1).dropLast⟩ : String) else server_hash0
  let s2 := if pyStartsWith s1 "lxmf://" then (⟨s1.data.drop 7⟩ : String) else s1
  let hp : String × String :=
    if pyContains s2 "/" then
      match splitOnceChars ['/'] s2.data with
      | some (a, b) => (⟨a⟩, if page_name0 = "" then (⟨b⟩ : String) else page_name0)
      | none => (s2, page_name0)
    else (s2, page_name0)
  (hp.1, if hp.2 = "" then "index" else hp.2)

/-- Effect of `request_page` on `pending_requests`: record a pending
`page` request under the normalized hash, replacing any previous entry
for that key. -/
def requestPagePending (pending : PendingMap) (server_hash0 page_name0 : String)
    (t : Nat) : PendingMap :=
  let hp := requestPageTarget server_hash0 page_name0
  dictInsert pending hp.1 ⟨"page", some hp.2, t⟩

/-- A value of the LXMF message field map. -/
inductive FieldValue where
  | str (s : String)
  | files (l : List (String × String))
deriving DecidableEq, Repr

/-- An inbound LXMF message as seen by `_handle_message`: the source hash
(raw, before `prettyhexrep`), the decoded content, and the field map. -/
structure InboundMsg where
  source_hash : String
  content : String
  fields : List (Nat × FieldValue)
deriving DecidableEq, Repr

/-- Python `k in message.fields`. -/
def hasField (m : InboundMsg) (k : Nat) : Bool := m.fields.any (fun e => e.1 == k)

/-- Effect of `LXMFHTMLBrowser._handle_message` on `pending_requests`:
the sender key is `prettyhexrep(message.source_hash)`; a pending `list`
entry is deleted when the content carries the `Available Pages` sentinel;
otherwise a message with `FIELD_HTML_CONTENT = 10` (HTML page) or
`FIELD_FILE_ATTACHMENTS = 2` (file download) deletes the pending entry
for that key if present. -/
def handleMessagePending (pending : PendingMap) (m : InboundMsg) : PendingMap :=
  let server_hash := prettyhexrep m.source_hash
  let is_pending := dictContains pending server_hash
  if is_pending
      && (((dictFind pending server_hash).map (fun e => e.ptype)).getD "" == "list")
      && pyContains m.content "Available Pages" then
    dictErase pending server_hash
  else if !m.fields.isEmpty && hasField m 10 then
    if is_pending && dictContains pending server_hash then dictErase pending server_hash
    else pending
  else if !m.fields.isEmpty && hasField m 2 then
    if is_pending && dictContains pending server_hash then dictErase pending server_hash
    else pending
  else pending

/-- One bookmark (`/api/bookmark/add` builds
`{name, hash, added}` records). -/
structure Bookmark where
  name : String
  hash : String
  added : Nat
deriving DecidableEq, Repr

/-- Embedding of the `/api/bookmark/add` route: unconditionally append. -/
def addBookmark (bookmarks : List Bookmark) (name hash : String) (t : Nat) :
    List Bookmark :=
  bookmarks ++ [⟨name, hash, t⟩]

/-- Embedding of the `/api/bookmark/remove` route: keep the bookmarks
whose hash differs. -/
def removeBookmark (bookmarks : List Bookmark) (hash : String) : List Bookmark :=
  bookmarks.filter (fun b => !(b.hash == hash))

/-! Path-resolution waiting.  Time is modelled in half-second ticks;
`rcl k` says whether `RNS.Identity.recall` succeeds when queried `k`
ticks after the first recall attempt. -/

/-- The retry loop of `_send_html` / `_send_file`: poll `rcl` once per
tick for the given number of remaining ticks. -/
def pathWaitLoop (rcl : Nat → Bool) (tick : Nat) : Nat → Bool
  | 0 => false
  | k + 1 => if rcl tick then true else pathWaitLoop rcl (tick + 1) k

/-- Identity resolution of the server's `_send_html` and `_send_file`: an
immediate recall; on failure a path request followed by up to
`max_wait = 15` seconds of half-second polls (30 ticks). -/
def serverIdentityFound (rcl : Nat → Bool) : Bool :=
  if rcl 0 then true else pathWaitLoop rcl 1 30

/-- Identity resolution of the client's `request_page`: an immediate
recall; on failure a path request, a single `time.sleep(2)` and one more
recall (tick 4).  `request_page` returns failure if both recalls fail. -/
def clientIdentityFound (rcl : Nat → Bool) : Bool :=
  if rcl 0 then true else rcl 4

/-! Recurrence equations for the fueled scanners: the fuel is irrelevant
as soon as it dominates the input length, giving the natural one-step
unfoldings of `replaceChars`, `countChars` and `splitChars`. -/

theorem replaceGo_congr (old new : List Char) :
    ∀ f₁ f₂ (l : List Char), l.length ≤ f₁ → l.length ≤ f₂ →
      replaceGo old new f₁ l = replaceGo old new f₂ l := by
  intro f₁
  induction f₁ with
  | zero =>
    intro f₂ l h1 _
    have : l = [] := List.eq_nil_of_length_eq_zero (Nat.le_zero.mp h1)
    subst this
    cases f₂ <;> rfl
  | succ f ih =>
    intro f₂ l h1 h2
    cases l with
    | nil => cases f₂ <;> rfl
    | cons c t =>
      cases f₂ with
      | zero => exact absurd h2 (by simp)
      | succ g =>
        simp only [List.length_cons] at h1 h2
        simp only [replaceGo]
        by_cases hc : (!old.isEmpty && old.isPrefixOf (c :: t)) = true
        · have hne : old ≠ [] := by
            intro hnil
            subst hnil
            simp at hc
          have hlen : (List.drop old.length (c :: t)).length ≤ f := by
            have : 1 ≤ old.length := List.length_pos.mpr hne
            simp only [List.length_drop, List.length_cons]
            omega
          have hlen2 : (List.drop old.length (c :: t)).length ≤ g := by
            have : 1 ≤ old.length := List.length_pos.mpr hne
            simp only [List.length_drop, List.length_cons]
            omega
          simp [hc, ih _ _ hlen hlen2]
        · have hlt : t.length ≤ f := by omega
          have hlt2 : t.length ≤ g := by omega
          simp [hc, ih _ _ hlt hlt2]

theorem replaceChars_nil (old new : List Char) : replaceChars old new [] = [] := rfl

theorem replaceChars_cons (old new : List Char) (c : Char) (t : List Char) :
    replaceChars old new (c :: t) =
      if !old.isEmpty && old.isPrefixOf (c :: t) then
        new ++ replaceChars old new (List.drop old.length (c :: t))
      else
        c :: replaceChars old new t := by
  show replaceGo old new (t.length + 1) (c :: t) = _
  simp only [replaceGo]
  by_cases hc : (!old.isEmpty && old.isPrefixOf (c :: t)) = true
  · have hne : old ≠ [] := by
      intro hnil
      subst hnil
      simp at hc
    have h1 : (List.drop old.length (c :: t)).length ≤ t.length := by
      have : 1 ≤ old.length := List.length_pos.mpr hne
      simp only [List.length_drop, List.length_cons]
      omega
    simp [hc, replaceChars, replaceGo_congr old new t.length _ _ h1 (Nat.le_refl _)]
  · simp [hc, replaceChars]

theorem countGo_congr (old : List Char) :
    ∀ f₁ f₂ (l : List Char), l.length ≤ f₁ → l.length ≤ f₂ →
      countGo old f₁ l = countGo old f₂ l := by
  intro f₁
  induction f₁ with
  | zero =>
    intro f₂ l h1 _
    have : l = [] := List.eq_nil_of_length_eq_zero (Nat.le_zero.mp h1)
    subst this
    cases f₂ <;> rfl
  | succ f ih =>
    intro f₂ l h1 h2
    cases l with
    | nil => cases f₂ <;> rfl
    | cons c t =>
      cases f₂ with
      | zero => exact absurd h2 (by simp)
      | succ g =>
        simp only [List.length_cons] at h1 h2
        simp only [countGo]
        by_cases hc : (!old.isEmpty && old.isPrefixOf (c :: t)) = true
        · have hne : old ≠ [] := by
            intro hnil
            subst hnil
            simp at hc
          have hlen : (List.drop old.length (c :: t)).length ≤ f := by
            have : 1 ≤ old.length := List.length_pos.mpr hne
            simp only [List.length_drop, List.length_cons]
            omega
          have hlen2 : (List.drop old.length (c :: t)).length ≤ g := by
            have : 1 ≤ old.length := List.length_pos.mpr hne
            simp only [List.length_drop, List.length_cons]
            omega
          simp [hc, ih _ _ hlen hlen2]
        · have hlt : t.length ≤ f := by omega
          have hlt2 : t.length ≤ g := by omega
          simp [hc, ih _ _ hlt hlt2]

theorem countChars_nil (old : List Char) : countChars old [] = 0 := rfl

theorem countChars_cons (old : List Char) (c : Char) (t : List Char) :
    countChars old (c :: t) =
      if !old.isEmpty && old.isPrefixOf (c :: t) then
        countChars old (List.drop old.length (c :: t)) + 1
      else
        countChars old t := by
  show countGo old (t.length + 1) (c :: t) = _
  simp only [countGo]
  by_cases hc : (!old.isEmpty && old.isPrefixOf (c :: t)) = true
  · have hne : old ≠ [] := by
      intro hnil
      subst hnil
      simp at hc
    have h1 : (List.drop old.length (c :: t)).length ≤ t.length := by
      have : 1 ≤ old.length := List.length_pos.mpr hne
      simp only [List.length_drop, List.length_cons]
      omega
    simp [hc, countChars, countGo_congr old t.length _ _ h1 (Nat.le_refl _)]
  · simp [hc, countChars]

theorem splitGo_congr (sep : List Char) :
    ∀ f₁ f₂ (l : List Char), l.length ≤ f₁ → l.length ≤ f₂ →
      splitGo sep f₁ l = splitGo sep f₂ l := by
  intro f₁
  induction f₁ with
  | zero =>
    intro f₂ l h1 _
    have : l = [] := List.eq_nil_of_length_eq_zero (Nat.le_zero.mp h1)
    subst this
    cases f₂ <;> rfl
  | succ f ih =>
    intro f₂ l h1 h2
    cases l with
    | nil => cases f₂ <;> rfl
    | cons c t =>
      cases f₂ with
      | zero => exact absurd h2 (by simp)
      | succ g =>
        simp only [List.length_cons] at h1 h2
        simp only [splitGo]
        by_cases hc : (!sep.isEmpty && sep.isPrefixOf (c :: t)) = true
        · have hne : sep ≠ [] := by
            intro hnil
            subst hnil
            simp at hc
          have hlen : (List.drop sep.length (c :: t)).length ≤ f := by
            have : 1 ≤ sep.length := List.length_pos.mpr hne
            simp only [List.length_drop, List.length_cons]
            omega
          have hlen2 : (List.drop sep.length (c :: t)).length ≤ g := by
            have : 1 ≤ sep.length := List.length_pos.mpr hne
            simp only [List.length_drop, List.length_cons]
            omega
          simp [hc, ih _ _ hlen hlen2]
        · have hlt : t.length ≤ f := by omega
          have hlt2 : t.length ≤ g := by omega
          simp [hc, ih _ _ hlt hlt2]

theorem splitChars_nil (sep : List Char) : splitChars sep [] = [[]] := rfl

theorem splitChars_cons (sep : List Char) (c : Char) (t : List Char) :
    splitChars sep (c :: t) =
      if !sep.isEmpty && sep.isPrefixOf (c :: t) then
        [] :: splitChars sep (List.drop sep.length (c :: t))
      else
        match splitChars sep t with
        | [] => [[c]]
        | p :: rest => (c :: p) :: rest := by
  show splitGo sep (t.length + 1) (c :: t) = _
  simp only [splitGo]
  by_cases hc : (!sep.isEmpty && sep.isPrefixOf (c :: t)) = true
  · have hne : sep ≠ [] := by
      intro hnil
      subst hnil
      simp at hc
    have h1 : (List.drop sep.length (c :: t)).length ≤ t.length := by
      have : 1 ≤ sep.length := List.length_pos.mpr hne
      simp only [List.length_drop, List.length_cons]
      omega
    simp [hc, splitChars, splitGo_congr sep t.length _ _ h1 (Nat.le_refl _)]
  · simp [hc, splitChars]

/-! Structural facts relating `splitChars`, `joinWith`, `replaceChars`,
`countChars` and `containsChars`: Python's `replace` is `join` after
`split`, splitting and re-joining on the same separator is the identity,
and the number of pieces exceeds the occurrence count by one. -/

theorem splitChars_ne_nil (sep l : List Char) : splitChars sep l ≠ [] := by
  cases l with
  | nil => simp [splitChars_nil]
  | cons c t =>
    rw [splitChars_cons]
    by_cases hc : (!sep.isEmpty && sep.isPrefixOf (c :: t)) = true
    · rw [if_pos hc]; simp
    · rw [if_neg hc]
      rcases h : splitChars sep t with _ | ⟨p, rest⟩ <;> simp [h]

theorem joinWith_cons_cons (sep : List Char) (c : Char) (p : List Char)
    (rest : List (List Char)) :
    joinWith sep ((c :: p) :: rest) = c :: joinWith sep (p :: rest) := by
  cases rest <;> simp [joinWith]

theorem replaceChars_eq_joinWith (old new : List Char) :
    ∀ l : List Char, replaceChars old new l = joinWith new (splitChars old l) := by
  have aux : ∀ n (l : List Char), l.length ≤ n →
      replaceChars old new l = joinWith new (splitChars old l) := by
    intro n
    induction n with
    | zero =>
      intro l h
      obtain rfl : l = [] := List.eq_nil_of_length_eq_zero (Nat.le_zero.mp h)
      simp [replaceChars_nil, splitChars_nil, joinWith]
    | succ n ih =>
      intro l h
      cases l with
      | nil => simp [replaceChars_nil, splitChars_nil, joinWith]
      | cons c t =>
        simp only [List.length_cons] at h
        rw [replaceChars_cons, splitChars_cons]
        by_cases hc : (!old.isEmpty && old.isPrefixOf (c :: t)) = true
        · rw [if_pos hc, if_pos hc]
          have hne : old ≠ [] := by
            intro hnil; subst hnil; simp at hc
          have hlen : (List.drop old.length (c :: t)).length ≤ n := by
            have : 1 ≤ old.length := List.length_pos.mpr hne
            simp only [List.length_drop, List.length_cons]
            omega
          rw [ih _ hlen]
          rcases hsp : splitChars old (List.drop old.length (c :: t)) with _ | ⟨p, ps⟩
          · exact absurd hsp (splitChars_ne_nil old _)
          · simp [joinWith]
        · rw [if_neg hc, if_neg hc]
          have hlen : t.length ≤ n := by omega
          rw [ih _ hlen]
          rcases hsp : splitChars old t with _ | ⟨p, ps⟩
          · exact absurd hsp (splitChars_ne_nil old t)
          · simp only [hsp]
            rw [joinWith_cons_cons]
  exact fun l => aux l.length l (Nat.le_refl _)

theorem replaceChars_self (old : List Char) :
    ∀ l : List Char, replaceChars old old l = l := by
  have aux : ∀ n (l : List Char), l.length ≤ n → replaceChars old old l = l := by
    intro n
    induction n with
    | zero =>
      intro l h
      obtain rfl : l = [] := List.eq_nil_of_length_eq_zero (Nat.le_zero.mp h)
      rfl
    | succ n ih =>
      intro l h
      cases l with
      | nil => rfl
      | cons c t =>
        simp only [List.length_cons] at h
        rw [replaceChars_cons]
        by_cases hc : (!old.isEmpty && old.isPrefixOf (c :: t)) = true
        · rw [if_pos hc]
          have hne : old ≠ [] := by
            intro hnil; subst hnil; simp at hc
          have hpre : old <+: c :: t :=
            List.isPrefixOf_iff_prefix.mp (Bool.and_elim_right hc)
          obtain ⟨r, hr⟩ := hpre
          have hlen : (List.drop old.length (c :: t)).length ≤ n := by
            have : 1 ≤ old.length := List.length_pos.mpr hne
            simp only [List.length_drop, List.length_cons]
            omega
          rw [ih _ hlen, ← hr, List.drop_left]
        · rw [if_neg hc]
          have hlen : t.length ≤ n := by omega
          rw [ih _ hlen]
  exact fun l => aux l.length l (Nat.le_refl _)

theorem joinWith_splitChars (old : List Char) (l : List Char) :
    joinWith old (splitChars old l) = l := by
  rw [← replaceChars_eq_joinWith]
  exact replaceChars_self old l

theorem splitChars_length_eq_count (old : List Char) :
    ∀ l : List Char, (splitChars old l).length = countChars old l + 1 := by
  have aux : ∀ n (l : List Char), l.length ≤ n →
      (splitChars old l).length = countChars old l + 1 := by
    intro n
    induction n with
    | zero =>
      intro l h
      obtain rfl : l = [] := List.eq_nil_of_length_eq_zero (Nat.le_zero.mp h)
      rfl
    | succ n ih =>
      intro l h
      cases l with
      | nil => rfl
      | cons c t =>
        simp only [List.length_cons] at h
        rw [splitChars_cons, countChars_cons]
        by_cases hc : (!old.isEmpty && old.isPrefixOf (c :: t)) = true
        · rw [if_pos hc, if_pos hc]
          have hne : old ≠ [] := by
            intro hnil; subst hnil; simp at hc
          have hlen : (List.drop old.length (c :: t)).length ≤ n := by
            have : 1 ≤ old.length := List.length_pos.mpr hne
            simp only [List.length_drop, List.length_cons]
            omega
          simp [ih _ hlen]
        · rw [if_neg hc, if_neg hc]
          have hlen : t.length ≤ n := by omega
          rcases hsp : splitChars old t with _ | ⟨p, ps⟩
          · exact absurd hsp (splitChars_ne_nil old t)
          · have := ih _ hlen
            rw [hsp] at this
            simp only [hsp]
            simpa using this
  exact fun l => aux l.length l (Nat.le_refl _)

theorem joinWith_length (sep : List Char) :
    ∀ ps : List (List Char), ps ≠ [] →
      (joinWith sep ps).length
        = (ps.map List.length).sum + (ps.length - 1) * sep.length := by
  intro ps
  induction ps with
  | nil => intro h; exact absurd rfl h
  | cons p ps ih =>
    intro _
    cases ps with
    | nil => simp [joinWith]
    | cons q qs =>
      have h2 := ih (by simp)
      simp only [joinWith, List.length_append, List.map_cons, List.sum_cons,
        List.length_cons, Nat.succ_sub_one, Nat.succ_mul] at h2 ⊢
      omega

theorem countChars_pos_of_contains (old : List Char) (hold : old ≠ []) :
    ∀ l : List Char, containsChars old l = true → 1 ≤ countChars old l := by
  have aux : ∀ n (l : List Char), l.length ≤ n → containsChars old l = true →
      1 ≤ countChars old l := by
    intro n
    induction n with
    | zero =>
      intro l h hcont
      obtain rfl : l = [] := List.eq_nil_of_length_eq_zero (Nat.le_zero.mp h)
      simp [containsChars, List.isEmpty_iff, hold] at hcont
    | succ n ih =>
      intro l h hcont
      cases l with
      | nil => simp [containsChars, List.isEmpty_iff, hold] at hcont
      | cons c t =>
        simp only [List.length_cons] at h
        rw [countChars_cons]
        by_cases hc : (!old.isEmpty && old.isPrefixOf (c :: t)) = true
        · rw [if_pos hc]; omega
        · rw [if_neg hc]
          have hpre : old.isPrefixOf (c :: t) = false := by
            by_cases hp : old.isPrefixOf (c :: t) = true
            · exfalso
              apply hc
              simp [hp, List.isEmpty_iff, hold]
            · exact Bool.not_eq_true _ ▸ Bool.of_not_eq_true hp
          have hct : containsChars old t = true := by
            have := hcont
            simp only [containsChars, hpre, Bool.false_or] at this
            exact this
          exact ih t (by omega) hct
  exact fun l => aux l.length l (Nat.le_refl _)

theorem containsChars_iff_infix (needle : List Char) :
    ∀ hay : List Char, containsChars needle hay = true ↔ needle <:+: hay := by
  intro hay
  induction hay with
  | nil =>
    simp only [containsChars, List.isEmpty_iff]
    constructor
    · intro h; subst h; exact List.infix_refl _
    · intro h; exact List.eq_nil_of_infix_nil h
  | cons c t ih =>
    simp only [containsChars, Bool.or_eq_true, List.isPrefixOf_iff_prefix, ih,
      List.infix_cons_iff]

theorem countChars_cons_of_head_ne (old : List Char) (a c : Char) (t : List Char)
    (h : old.head? = some a) (hne : a ≠ c) :
    countChars old (c :: t) = countChars old t := by
  obtain ⟨os, rfl⟩ := List.head?_eq_some_iff.mp h
  rw [countChars_cons, if_neg]
  intro hc
  have hpre : (a :: os).isPrefixOf (c :: t) = true := Bool.and_elim_right hc
  have : a :: os <+: c :: t := List.isPrefixOf_iff_prefix.mp hpre
  obtain ⟨r, hr⟩ := this
  simp only [List.cons_append, List.cons.injEq] at hr
  exact hne hr.1

theorem countChars_append_of_head_notin (old : List Char) (a : Char)
    (h : old.head? = some a) :
    ∀ (pre r : List Char), (∀ c ∈ pre, c ≠ a) →
      countChars old (pre ++ r) = countChars old r := by
  intro pre
  induction pre with
  | nil => intro r _; rfl
  | cons c p ih =>
    intro r hpre
    have h1 : c ≠ a := hpre c (by simp)
    rw [List.cons_append,
      countChars_cons_of_head_ne old a c (p ++ r) h (fun he => h1 he.symm)]
    exact ih r (fun x hx => hpre x (by simp [hx]))

theorem countChars_self_append (old : List Char) (hold : old ≠ []) (r : List Char) :
    countChars old (old ++ r) = countChars old r + 1 := by
  rcases old with _ | ⟨o, os⟩
  · exact absurd rfl hold
  · rw [List.cons_append, countChars_cons, if_pos]
    · congr 1
      have : (o :: os) ++ r = o :: (os ++ r) := rfl
      rw [← this, List.drop_left]
    · have hpre : (o :: os).isPrefixOf ((o :: os) ++ r) = true :=
        List.isPrefixOf_iff_prefix.mpr (List.prefix_append _ _)
      simp only [List.cons_append] at hpre
      simp [hpre]

theorem replaceChars_length_add (old new l : List Char) :
    (replaceChars old new l).length + countChars old l * old.length
      = l.length + countChars old l * new.length := by
  have h1 := joinWith_length new (splitChars old l) (splitChars_ne_nil old l)
  have h2 := joinWith_length old (splitChars old l) (splitChars_ne_nil old l)
  rw [joinWith_splitChars] at h2
  rw [replaceChars_eq_joinWith, h1]
  rw [splitChars_length_eq_count] at h1 h2 ⊢
  simp only [Nat.succ_sub_one] at h1 h2 ⊢
  omega

theorem replaceChars_insert_length (old ins l : List Char) :
    (replaceChars old (ins ++ old) l).length
      = l.length + countChars old l * ins.length := by
  have h := replaceChars_length_add old (ins ++ old) l
  simp only [List.length_append, Nat.mul_add] at h
  omega

theorem infix_replaceChars_insert (old ins l : List Char) (hold : old ≠ [])
    (h : containsChars old l = true) :
    ins <:+: replaceChars old (ins ++ old) l := by
  rw [replaceChars_eq_joinWith]
  have hc := countChars_pos_of_contains old hold l h
  have hl := splitChars_length_eq_count old l
  rcases hsp : splitChars old l with _ | ⟨p, ps⟩
  · exact absurd hsp (splitChars_ne_nil old l)
  · rcases ps with _ | ⟨q, qs⟩
    · rw [hsp] at hl
      simp at hl
      omega
    · refine ⟨p, old ++ joinWith (ins ++ old) (q :: qs), ?_⟩
      simp [joinWith, List.append_assoc]

/-! Claim C2: script injection into cached HTML. -/

/-- Claim C2 (amended): every HTML document stored by the client's
cache-save operation contains at least one copy of the click-interceptor
script; one copy is inserted before each occurrence of `</head>` when
that tag is present, otherwise before each occurrence of `</body>` when
present, otherwise one copy is appended, so the stored length exceeds the
input length by exactly (number of insertion points) x (script length) -
in particular an input containing the chosen tag exactly once (or neither
tag) stores exactly one inserted copy. -/
theorem claim_c2_amended (html_content server_hash : String) :
    (injectScript server_hash).data <:+: (saveHtmlContent html_content server_hash).data
    ∧ (saveHtmlContent html_content server_hash).data.length
        = html_content.data.length
          + (if pyContains html_content "</head>" = true then
               pyCount html_content "</head>"
             else if pyContains html_content "</body>" = true then
               pyCount html_content "</body>"
             else 1) * (injectScript server_hash).data.length := by
  have hhead : ("</head>" : String).data ≠ [] := by decide
  have hbody : ("</body>" : String).data ≠ [] := by decide
  unfold saveHtmlContent
  by_cases h1 : pyContains html_content "</head>" = true
  · rw [if_pos h1, if_pos h1]
    constructor
    · have := infix_replaceChars_insert ("</head>" : String).data
        (injectScript server_hash).data html_content.data hhead h1
      simpa [pyReplace, String.data_append] using this
    · have := replaceChars_insert_length ("</head>" : String).data
        (injectScript server_hash).data html_content.data
      simpa [pyReplace, pyCount, String.data_append] using this
  · rw [if_neg h1, if_neg h1]
    by_cases h2 : pyContains html_content "</body>" = true
    · rw [if_pos h2, if_pos h2]
      constructor
      · have := infix_replaceChars_insert ("</body>" : String).data
          (injectScript server_hash).data html_content.data hbody h2
        simpa [pyReplace, String.data_append] using this
      · have := replaceChars_insert_length ("</body>" : String).data
          (injectScript server_hash).data html_content.data
        simpa [pyReplace, pyCount, String.data_append] using this
    · rw [if_neg h2, if_neg h2]
      constructor
      · exact ⟨html_content.data, [], by simp [String.data_append]⟩
      · simp [String.data_append]

/-- Claim C2 (counterexample): for input HTML containing `</head>` twice,
the stored text contains two copies of the click-interceptor script, not
exactly one. -/
theorem claim_c2_counterexample :
    pyCount (saveHtmlContent "x</head>y</head>" "h") (injectScript "h") = 2
    ∧ ¬ pyCount (saveHtmlContent "x</head>y</head>" "h") (injectScript "h") = 1 := by
  have key : pyCount (saveHtmlContent "x</head>y</head>" "h") (injectScript "h") = 2 := by
    have hcontains : pyContains "x</head>y</head>" "</head>" = true := by decide
    have hsave : (saveHtmlContent "x</head>y</head>" "h").data
        = replaceChars ("</head>" : String).data
            ((injectScript "h").data ++ ("</head>" : String).data)
            ("x</head>y</head>" : String).data := by
      unfold saveHtmlContent
      rw [if_pos hcontains]
      simp [pyReplace, String.data_append]
    have hsplit : splitChars ("</head>" : String).data ("x</head>y</head>" : String).data
        = [['x'], ['y'], []] := by decide
    have hb := replaceChars_eq_joinWith ("</head>" : String).data
        ((injectScript "h").data ++ ("</head>" : String).data)
        ("x</head>y</head>" : String).data
    rw [hsplit] at hb
    have hh : (injectScript "h").data.head? = some '\x0a' := by decide
    have hs_ne : (injectScript "h").data ≠ [] := by
      intro hnil
      rw [hnil] at hh
      simp at hh
    have h7 : ∀ c ∈ ("</head>" : String).data, c ≠ '\x0a' := by decide
    show countChars (injectScript "h").data (saveHtmlContent "x</head>y</head>" "h").data = 2
    rw [hsave, hb]
    have hj : joinWith ((injectScript "h").data ++ ("</head>" : String).data) [['x'], ['y'], []]
        = ['x'] ++ (((injectScript "h").data ++ ("</head>" : String).data) ++
            (['y'] ++ (((injectScript "h").data ++ ("</head>" : String).data) ++ []))) := by
      simp [joinWith]
    rw [hj]
    rw [countChars_append_of_head_notin _ _ hh ['x'] _ (by decide)]
    rw [List.append_assoc]
    rw [countChars_self_append _ hs_ne]
    rw [countChars_append_of_head_notin _ _ hh _ _ h7]
    rw [countChars_append_of_head_notin _ _ hh ['y'] _ (by decide)]
    rw [List.append_nil]
    rw [countChars_self_append _ hs_ne]
    have hz := countChars_append_of_head_notin _ _ hh ("</head>" : String).data [] h7
    simp only [List.append_nil] at hz
    rw [hz]
    rfl
  exact ⟨key, by omega⟩

/-! Branch characterizations of `servePage`. -/

theorem lookupFile_mem {store : FileStore} {name c : String}
    (h : lookupFile store name = some c) : (name, c) ∈ store := by
  unfold lookupFile at h
  rcases hf : store.find? (fun e => e.1 == name) with _ | e
  · rw [hf] at h; cases h
  · rw [hf] at h
    simp at h
    have h1 : e.1 = name := by
      have := List.find?_some hf
      simpa using this
    have h2 : e ∈ store := List.mem_of_find?_eq_some hf
    have : e = (name, c) := by
      rcases e with ⟨a, b⟩
      simp only at h1
      simp only at h
      rw [h1, h]
    rw [← this]
    exact h2

theorem pathExists_of_lookup {store : FileStore} {name c : String}
    (h : lookupFile store name = some c) : pathExistsInPages store name = true := by
  unfold lookupFile at h
  rcases hf : store.find? (fun e => e.1 == name) with _ | e
  · rw [hf] at h; cases h
  · have h2 : e ∈ store := List.mem_of_find?_eq_some hf
    have h1 := List.find?_some hf
    unfold pathExistsInPages
    have : store.any (fun e => e.1 == name) = true :=
      List.any_eq_true.mpr ⟨e, h2, h1⟩
    simp [this]

theorem pathExists_false_of_lookup_none {store : FileStore} {name : String}
    (hn : lookupFile store name = none) (h1 : name ≠ ".") (h2 : name ≠ "..") :
    pathExistsInPages store name = false := by
  unfold pathExistsInPages
  have hfind : store.find? (fun e => e.1 == name) = none := by
    unfold lookupFile at hn
    rcases hf : store.find? (fun e => e.1 == name) with _ | e
    · exact hf
    · rw [hf] at hn; cases hn
  have hany : store.any (fun e => e.1 == name) = false := by
    rcases hval : store.any (fun e => e.1 == name) with _ | _
    · rfl
    · rcases List.any_eq_true.mp hval with ⟨e, he, hp⟩
      have := List.find?_eq_none.mp hfind e he
      exact absurd hp this
  simp [hany, h1, h2]

theorem servePage_of_index (now : String) (store : FileStore) (P : String)
    (h : pyBasename P = "" ∨ pyLower (pyBasename P) ∈ indexAliases) :
    servePage now store P
      = { responses := [Response.html (dynamicIndexHtml now store) "File Index",
                        Response.plain (textIndex store)],
          log := [("INDEX", true)], counterInc := 0, ok := true } := by
  unfold servePage
  simp only [if_pos h]

theorem servePage_of_missing (now : String) (store : FileStore) (P : String)
    (h1 : ¬ (pyBasename P = "" ∨ pyLower (pyBasename P) ∈ indexAliases))
    (h2 : pathExistsInPages store (pyBasename P) = false) :
    servePage now store P
      = { responses := [Response.html (error404Html (pyBasename P))
            ("404: " ++ pyBasename P)],
          log := [(pyBasename P, false)], counterInc := 0, ok := false } := by
  unfold servePage
  simp only [if_neg h1, h2]
  simp

theorem servePage_of_html_some (now : String) (store : FileStore) (P content : String)
    (h1 : ¬ (pyBasename P = "" ∨ pyLower (pyBasename P) ∈ indexAliases))
    (hext : pyLower (splitextExt (pyBasename P)) = ".html"
            ∨ pyLower (splitextExt (pyBasename P)) = ".htm")
    (hlook : lookupFile store (pyBasename P) = some content) :
    servePage now store P
      = { responses := [Response.html (processTemplate now store content)
            ("Serving: " ++ pyBasename P)],
          log := [(pyBasename P, true)], counterInc := 1, ok := true } := by
  unfold servePage
  simp only [if_neg h1, pathExists_of_lookup hlook, if_pos hext, hlook]
  simp

theorem servePage_of_html_none (now : String) (store : FileStore) (P : String)
    (h1 : ¬ (pyBasename P = "" ∨ pyLower (pyBasename P) ∈ indexAliases))
    (hpath : pathExistsInPages store (pyBasename P) = true)
    (hext : pyLower (splitextExt (pyBasename P)) = ".html"
            ∨ pyLower (splitextExt (pyBasename P)) = ".htm")
    (hlook : lookupFile store (pyBasename P) = none) :
    servePage now store P
      = { responses := [], log := [(pyBasename P, false)], counterInc := 0,
          ok := false } := by
  unfold servePage
  simp only [if_neg h1, hpath, if_pos hext, hlook]
  simp

theorem servePage_of_file_some (now : String) (store : FileStore) (P content : String)
    (h1 : ¬ (pyBasename P = "" ∨ pyLower (pyBasename P) ∈ indexAliases))
    (hext : ¬ (pyLower (splitextExt (pyBasename P)) = ".html"
            ∨ pyLower (splitextExt (pyBasename P)) = ".htm"))
    (hlook : lookupFile store (pyBasename P) = some content) :
    servePage now store P
      = { responses := [Response.file (pyBasename P) content
            ("File: " ++ pyBasename P ++ " (" ++ fileSizeStr content.length ++ ")")],
          log := [(pyBasename P, true)], counterInc := 1, ok := true } := by
  unfold servePage
  simp only [if_neg h1, pathExists_of_lookup hlook, if_neg hext, hlook]
  simp

theorem servePage_of_file_none (now : String) (store : FileStore) (P : String)
    (h1 : ¬ (pyBasename P = "" ∨ pyLower (pyBasename P) ∈ indexAliases))
    (hpath : pathExistsInPages store (pyBasename P) = true)
    (hext : ¬ (pyLower (splitextExt (pyBasename P)) = ".html"
            ∨ pyLower (splitextExt (pyBasename P)) = ".htm"))
    (hlook : lookupFile store (pyBasename P) = none) :
    servePage now store P
      = { responses := [], log := [(pyBasename P, true)], counterInc := 1,
          ok := true } := by
  unfold servePage
  simp only [if_neg h1, hpath, if_neg hext, hlook]
  simp

theorem takeWhile_idem (p : Char → Bool) (l : List Char) :
    List.takeWhile p (List.takeWhile p l) = List.takeWhile p l :=
  List.takeWhile_eq_self_iff.mpr (fun _ hx => List.mem_takeWhile_imp hx)

theorem basenameChars_idem (l : List Char) :
    basenameChars (basenameChars l) = basenameChars l := by
  unfold basenameChars
  rw [List.reverse_reverse, takeWhile_idem]

theorem pyBasename_idem (s : String) : pyBasename (pyBasename s) = pyBasename s :=
  congrArg String.mk (basenameChars_idem s.data)

/-! Claim C1: path traversal and 404 handling. -/

/-- Claim C1 (amended): the request is always reduced to its basename
before lookup; when that basename is neither empty, an index alias, nor
one of the directory entries `.` and `..`, and is absent from the pages
directory, the serve operation sends exactly one response, the 404 HTML
page with body text `404: basename(P)`; file-attachment responses always
carry a file of the pages directory verbatim, and HTML responses are
always the generated index, the generated 404 page, or a templated page
of the pages directory, so contents of files outside the pages directory
are never sent. -/
theorem claim_c1_amended :
    (∀ (now : String) (store : FileStore) (P : String),
        ¬ (pyBasename P = "" ∨ pyLower (pyBasename P) ∈ indexAliases) →
        pyBasename P ≠ "." → pyBasename P ≠ ".." →
        lookupFile store (pyBasename P) = none →
        servePage now store P
          = { responses := [Response.html (error404Html (pyBasename P))
                ("404: " ++ pyBasename P)],
              log := [(pyBasename P, false)], counterInc := 0, ok := false })
    ∧ (∀ (now : String) (store : FileStore) (P n d t : String),
        Response.file n d t ∈ (servePage now store P).responses → (n, d) ∈ store)
    ∧ (∀ (now : String) (store : FileStore) (P b t : String),
        Response.html b t ∈ (servePage now store P).responses →
          b = dynamicIndexHtml now store
          ∨ b = error404Html (pyBasename P)
          ∨ ∃ c, (pyBasename P, c) ∈ store ∧ b = processTemplate now store c)
    ∧ (∀ (now : String) (store : FileStore) (P : String),
        servePage now store P = servePage now store (pyBasename P)) := by
  refine ⟨?_, ?_, ?_, ?_⟩
  · intro now store P h1 hdot1 hdot2 hlook
    exact servePage_of_missing now store P h1
      (pathExists_false_of_lookup_none hlook hdot1 hdot2)
  · intro now store P n d t hmem
    by_cases h1 : pyBasename P = "" ∨ pyLower (pyBasename P) ∈ indexAliases
    · rw [servePage_of_index now store P h1] at hmem
      simp at hmem
    · by_cases hpath : pathExistsInPages store (pyBasename P) = true
      · by_cases hext : pyLower (splitextExt (pyBasename P)) = ".html"
            ∨ pyLower (splitextExt (pyBasename P)) = ".htm"
        · rcases hlook : lookupFile store (pyBasename P) with _ | content
          · rw [servePage_of_html_none now store P h1 hpath hext hlook] at hmem
            simp at hmem
          · rw [servePage_of_html_some now store P content h1 hext hlook] at hmem
            simp at hmem
        · rcases hlook : lookupFile store (pyBasename P) with _ | content
          · rw [servePage_of_file_none now store P h1 hpath hext hlook] at hmem
            simp at hmem
          · rw [servePage_of_file_some now store P content h1 hext hlook] at hmem
            simp only [List.mem_singleton, Response.file.injEq] at hmem
            obtain ⟨rfl, rfl, -⟩ := hmem
            exact lookupFile_mem hlook
      · have hpf : pathExistsInPages store (pyBasename P) = false := by
          rcases hv : pathExistsInPages store (pyBasename P) with _ | _
          · rfl
          · exact absurd hv hpath
        rw [servePage_of_missing now store P h1 hpf] at hmem
        simp at hmem
  · intro now store P b t hmem
    by_cases h1 : pyBasename P = "" ∨ pyLower (pyBasename P) ∈ indexAliases
    · rw [servePage_of_index now store P h1] at hmem
      simp only [List.mem_cons, List.mem_singleton] at hmem
      rcases hmem with hm | hm | hm
      · left
        exact (Response.html.injEq _ _ _ _).mp hm |>.1
      · cases hm
      · cases hm
    · by_cases hpath : pathExistsInPages store (pyBasename P) = true
      · by_cases hext : pyLower (splitextExt (pyBasename P)) = ".html"
            ∨ pyLower (splitextExt (pyBasename P)) = ".htm"
        · rcases hlook : lookupFile store (pyBasename P) with _ | content
          · rw [servePage_of_html_none now store P h1 hpath hext hlook] at hmem
            simp at hmem
          · rw [servePage_of_html_some now store P content h1 hext hlook] at hmem
            simp only [List.mem_singleton, Response.html.injEq] at hmem
            right; right
            exact ⟨content, lookupFile_mem hlook, hmem.1⟩
        · rcases hlook : lookupFile store (pyBasename P) with _ | content
          · rw [servePage_of_file_none now store P h1 hpath hext hlook] at hmem
            simp at hmem
          · rw [servePage_of_file_some now store P content h1 hext hlook] at hmem
            simp at hmem
      · have hpf : pathExistsInPages store (pyBasename P) = false := by
          rcases hv : pathExistsInPages store (pyBasename P) with _ | _
          · rfl
          · exact absurd hv hpath
        rw [servePage_of_missing now store P h1 hpf] at hmem
        simp only [List.mem_singleton, Response.html.injEq] at hmem
        right; left
        exact hmem.1
  · intro now store P
    unfold servePage
    rw [pyBasename_idem]

/-- Claim C1 (counterexample): for the traversal request `../secret.html`
against a pages directory holding only `about.html`, the server sends a
404 whose body text is `404: secret.html` - the basename - and not
`404: ../secret.html` as the claim's body-text format states. -/
theorem claim_c1_counterexample :
    (servePage "TS" [("about.html", "A")] "../secret.html").responses.map
        Response.msgText = ["404: secret.html"]
    ∧ "404: secret.html" ≠ "404: ../secret.html" := by
  constructor
  · have h := servePage_of_missing "TS" [("about.html", "A")] "../secret.html"
      (by decide) (by decide)
    rw [h]
    rfl
  · decide

theorem not_INDEX_of_not_alias {P : String}
    (h1 : ¬ (pyBasename P = "" ∨ pyLower (pyBasename P) ∈ indexAliases)) :
    pyBasename P ≠ "INDEX" := by
  intro he
  apply h1
  right
  rw [he]
  decide

/-! Claim C4: access logging and the requests-served counter. -/

/-- Claim C4 (amended): every `_serve_page` call writes exactly one
access-log entry, rendered by `logLine` as
`[timestamp] <peer> requested '<page>' - SUCCESS|FAILED`; the
requests-served counter is incremented exactly when that entry is a
SUCCESS entry for a non-index page (HTML page or file-attachment serves),
and not for index serves or 404s. -/
theorem claim_c4_amended (now : String) (store : FileStore) (P ts peer : String) :
    ∃ p b, (servePage now store P).log = [(p, b)]
      ∧ (servePage now store P).log.map (fun e => logLine ts peer e.1 e.2)
          = [logLine ts peer p b]
      ∧ (servePage now store P).counterInc
          = (if b = true ∧ p ≠ "INDEX" then 1 else 0) := by
  by_cases h1 : pyBasename P = "" ∨ pyLower (pyBasename P) ∈ indexAliases
  · refine ⟨"INDEX", true, ?_, ?_, ?_⟩ <;>
      rw [servePage_of_index now store P h1] <;> simp
  · have hne := not_INDEX_of_not_alias h1
    by_cases hpath : pathExistsInPages store (pyBasename P) = true
    · by_cases hext : pyLower (splitextExt (pyBasename P)) = ".html"
          ∨ pyLower (splitextExt (pyBasename P)) = ".htm"
      · rcases hlook : lookupFile store (pyBasename P) with _ | content
        · refine ⟨pyBasename P, false, ?_, ?_, ?_⟩ <;>
            rw [servePage_of_html_none now store P h1 hpath hext hlook] <;> simp
        · refine ⟨pyBasename P, true, ?_, ?_, ?_⟩ <;>
            rw [servePage_of_html_some now store P content h1 hext hlook] <;>
            simp [hne]
      · rcases hlook : lookupFile store (pyBasename P) with _ | content
        · refine ⟨pyBasename P, true, ?_, ?_, ?_⟩ <;>
            rw [servePage_of_file_none now store P h1 hpath hext hlook] <;>
            simp [hne]
        · refine ⟨pyBasename P, true, ?_, ?_, ?_⟩ <;>
            rw [servePage_of_file_some now store P content h1 hext hlook] <;>
            simp [hne]
    · have hpf : pathExistsInPages store (pyBasename P) = false := by
        rcases hv : pathExistsInPages store (pyBasename P) with _ | _
        · rfl
        · exact absurd hv hpath
      refine ⟨pyBasename P, false, ?_, ?_, ?_⟩ <;>
        rw [servePage_of_missing now store P h1 hpf] <;> simp

/-- Claim C4 (counterexample): a 404 request and an index request each
write their single access-log line but do not increment the
requests-served counter, refuting "the requests-served counter is
incremented" for every served request. -/
theorem claim_c4_counterexample :
    (servePage "TS" [("about.html", "A")] "missing.html").log
        = [("missing.html", false)]
    ∧ (servePage "TS" [("about.html", "A")] "missing.html").counterInc = 0
    ∧ (servePage "TS" [("about.html", "A")] "index").log = [("INDEX", true)]
    ∧ (servePage "TS" [("about.html", "A")] "index").counterInc = 0 := by
  refine ⟨?_, ?_, ?_, ?_⟩ <;> decide

/-! Claim C10: 404 iff basename absent; unsupported extensions are still
served. -/

theorem string_append_ne {a b : String} (c : String) (h : a ≠ b) :
    a ++ c ≠ b ++ c := by
  intro he
  apply h
  have hd := congrArg String.data he
  simp only [String.data_append] at hd
  exact String.ext (List.append_cancel_right hd)

/-- Claim C10 (amended): for a non-index request whose basename is not one
of the directory entries `.` and `..`, the server sends a 404 response if
and only if the basename is not an entry of the pages directory; and a
file that exists in the pages directory with a non-HTML extension - in
particular one outside the supported-extension table - is served as a
file attachment rather than rejected. -/
theorem claim_c10_amended (now : String) (store : FileStore) (P : String)
    (h1 : ¬ (pyBasename P = "" ∨ pyLower (pyBasename P) ∈ indexAliases))
    (hdot1 : pyBasename P ≠ ".") (hdot2 : pyBasename P ≠ "..") :
    ((∃ b, Response.html b ("404: " ++ pyBasename P)
        ∈ (servePage now store P).responses)
      ↔ lookupFile store (pyBasename P) = none)
    ∧ (∀ content, lookupFile store (pyBasename P) = some content →
        ¬ (pyLower (splitextExt (pyBasename P)) = ".html"
            ∨ pyLower (splitextExt (pyBasename P)) = ".htm") →
        (servePage now store P).responses
          = [Response.file (pyBasename P) content
              ("File: " ++ pyBasename P ++ " ("
                ++ fileSizeStr content.length ++ ")")]) := by
  constructor
  · constructor
    · rintro ⟨b, hb⟩
      rcases hlook : lookupFile store (pyBasename P) with _ | content
      · rfl
      · exfalso
        by_cases hext : pyLower (splitextExt (pyBasename P)) = ".html"
            ∨ pyLower (splitextExt (pyBasename P)) = ".htm"
        · rw [servePage_of_html_some now store P content h1 hext hlook] at hb
          simp only [List.mem_singleton, Response.html.injEq] at hb
          exact string_append_ne (pyBasename P) (show ("404: " : String) ≠ "Serving: " by decide) hb.2
        · rw [servePage_of_file_some now store P content h1 hext hlook] at hb
          simp at hb
    · intro hlook
      rw [servePage_of_missing now store P h1
        (pathExists_false_of_lookup_none hlook hdot1 hdot2)]
      exact ⟨error404Html (pyBasename P), by simp⟩
  · intro content hlook hext
    rw [servePage_of_file_some now store P content h1 hext hlook]

/-- Claim C10 (witness): a file `photo.xyz` whose extension is not in the
supported table is nevertheless served as an attachment, and the 404
characterization holds at this input. -/
theorem claim_c10_witness :
    ((∃ b, Response.html b ("404: " ++ pyBasename "photo.xyz")
        ∈ (servePage "TS" [("photo.xyz", "D")] "photo.xyz").responses)
      ↔ lookupFile [("photo.xyz", "D")] (pyBasename "photo.xyz") = none)
    ∧ (∀ content, lookupFile [("photo.xyz", "D")] (pyBasename "photo.xyz")
          = some content →
        ¬ (pyLower (splitextExt (pyBasename "photo.xyz")) = ".html"
            ∨ pyLower (splitextExt (pyBasename "photo.xyz")) = ".htm") →
        (servePage "TS" [("photo.xyz", "D")] "photo.xyz").responses
          = [Response.file (pyBasename "photo.xyz") content
              ("File: " ++ pyBasename "photo.xyz" ++ " ("
                ++ fileSizeStr content.length ++ ")")]) :=
  claim_c10_amended "TS" [("photo.xyz", "D")] "photo.xyz"
    (by decide) (by decide) (by decide)

/-- Claim C10 (counterexample): for the request `..`, the basename `..` is
not an entry of the pages directory, yet no 404 (indeed no response at
all) is sent: the path exists on the filesystem as the parent directory,
`_send_file` fails internally, and `_serve_page` still reports success. -/
theorem claim_c10_counterexample :
    lookupFile [("about.html", "A")] (pyBasename "..") = none
    ∧ (servePage "TS" [("about.html", "A")] "..").responses = []
    ∧ (servePage "TS" [("about.html", "A")] "..").log = [("..", true)] := by
  refine ⟨?_, ?_, ?_⟩ <;> decide

/-- Claim C1 (witness): the amended claim evaluated on a concrete store
and traversal request, and basename reduction on a path-qualified
request. -/
theorem claim_c1_witness :
    servePage "TS" [("about.html", "A")] "../nope.html"
      = { responses := [Response.html (error404Html (pyBasename "../nope.html"))
            ("404: " ++ pyBasename "../nope.html")],
          log := [(pyBasename "../nope.html", false)], counterInc := 0, ok := false }
    ∧ servePage "TS" [("about.html", "A")] "dir/about.html"
        = servePage "TS" [("about.html", "A")] (pyBasename "dir/about.html") :=
  ⟨claim_c1_amended.1 "TS" [("about.html", "A")] "../nope.html"
      (by decide) (by decide) (by decide) (by decide),
   claim_c1_amended.2.2.2 "TS" [("about.html", "A")] "dir/about.html"⟩

/-! Claim C5: announce recognition and presentation name. -/

/-- Claim C5: an announce is recognized as an HTML server exactly when the
decoded display name contains the token `[HTML]` or the substring `HTML`
(case-sensitive); the presentation name is the display name with every
`[HTML]` occurrence removed (concatenating the pieces between
occurrences) and whitespace trimmed, with `"Unknown Server"` substituted
when that result is empty - so the presentation name is never empty. -/
theorem claim_c5_discovery (display_name : String) :
    (isHTMLServerName display_name = true ↔
      (("[HTML]" : String).data <:+: display_name.data
        ∨ ("HTML" : String).data <:+: display_name.data))
    ∧ serverDisplayName display_name ≠ ""
    ∧ (pyStrip (pyReplace display_name "[HTML]" "") = "" →
        serverDisplayName display_name = "Unknown Server")
    ∧ (pyStrip (pyReplace display_name "[HTML]" "") ≠ "" →
        serverDisplayName display_name = pyStrip (pyReplace display_name "[HTML]" ""))
    ∧ (pyReplace display_name "[HTML]" "").data
        = joinWith [] (splitChars ("[HTML]" : String).data display_name.data) := by
  refine ⟨?_, ?_, ?_, ?_, ?_⟩
  · unfold isHTMLServerName pyContains
    rw [Bool.or_eq_true, containsChars_iff_infix, containsChars_iff_infix]
  · unfold serverDisplayName
    by_cases h : pyStrip (pyReplace display_name "[HTML]" "") = ""
    · rw [if_pos h]
      decide
    · rw [if_neg h]
      exact h
  · intro h
    unfold serverDisplayName
    rw [if_pos h]
  · intro h
    unfold serverDisplayName
    rw [if_neg h]
  · exact replaceChars_eq_joinWith ("[HTML]" : String).data [] display_name.data

/-- Claim C5 (witness): the characterization applied to the display name
`"[HTML] Node"`, discharging the nonemptiness hypothesis there. -/
theorem claim_c5_witness :
    serverDisplayName "[HTML] Node"
      = pyStrip (pyReplace "[HTML] Node" "[HTML]" "")
    ∧ isHTMLServerName "[HTML] Node" = true :=
  ⟨(claim_c5_discovery "[HTML] Node").2.2.2.1 (by decide),
   ((claim_c5_discovery "[HTML] Node").1).mpr
     (Or.inl ⟨[], (" Node" : String).data, by decide⟩)⟩

/-! Claim C6: path-request waits. -/

theorem pathWaitLoop_iff (rcl : Nat → Bool) :
    ∀ n tick, pathWaitLoop rcl tick n = true
      ↔ ∃ i, i < n ∧ rcl (tick + i) = true := by
  intro n
  induction n with
  | zero => intro tick; simp [pathWaitLoop]
  | succ n ih =>
    intro tick
    simp only [pathWaitLoop]
    by_cases h : rcl tick = true
    · simp only [h, if_true, true_iff]
      exact ⟨0, by omega, by simpa using h⟩
    · rw [if_neg h, ih (tick + 1)]
      constructor
      · rintro ⟨i, hi, hr⟩
        exact ⟨i + 1, by omega, by rw [show tick + (i + 1) = tick + 1 + i by omega]; exact hr⟩
      · rintro ⟨i, hi, hr⟩
        cases i with
        | zero => simp only [Nat.add_zero] at hr; exact absurd hr h
        | succ i =>
          exact ⟨i, by omega, by rw [show tick + 1 + i = tick + (i + 1) by omega]; exact hr⟩

/-- Claim C6 (amended): the server's HTML and file sends poll the
identity once immediately and then, after a path request, every half
second for up to 15 seconds (ticks 1..30), succeeding exactly when one of
those recalls succeeds; the client's page request instead waits a single
2 seconds after its path request and re-checks once (tick 4), declaring
failure otherwise - it does not wait 15 seconds. -/
theorem claim_c6_amended (rcl : Nat → Bool) :
    (serverIdentityFound rcl = true ↔ ∃ k, k ≤ 30 ∧ rcl k = true)
    ∧ (clientIdentityFound rcl = true ↔ (rcl 0 = true ∨ rcl 4 = true)) := by
  constructor
  · unfold serverIdentityFound
    by_cases h : rcl 0 = true
    · simp only [h, if_true, true_iff]
      exact ⟨0, by omega, h⟩
    · rw [if_neg h, pathWaitLoop_iff]
      constructor
      · rintro ⟨i, hi, hr⟩
        exact ⟨1 + i, by omega, hr⟩
      · rintro ⟨k, hk, hr⟩
        cases k with
        | zero => exact absurd hr h
        | succ k => exact ⟨k, by omega, by rw [show 1 + k = k + 1 by omega]; exact hr⟩
  · unfold clientIdentityFound
    by_cases h : rcl 0 = true <;> simp [h]

/-- Claim C6 (counterexample): with an identity that becomes recallable 3
seconds (6 ticks) after the first recall attempt, the server-side send
resolves it within its 15-second wait, but the client page request has
already given up after its single 2-second wait - refuting the claimed
15-second bound for the client page request. -/
theorem claim_c6_counterexample :
    clientIdentityFound (fun k => decide (6 ≤ k)) = false
    ∧ serverIdentityFound (fun k => decide (6 ≤ k)) = true := by
  constructor <;> decide

/-! Claim C9: bookmarks are not deduplicated. -/

/-- Claim C9 (amended): adding a bookmark appends unconditionally, so the
number of bookmarks carrying a given peer hash grows by one whenever that
hash is added, already-bookmarked or not; the remove operation deletes
every bookmark with the given hash. -/
theorem claim_c9_amended (bookmarks : List Bookmark) (name hash : String)
    (t : Nat) (q : String) :
    ((addBookmark bookmarks name hash t).filter (fun b => b.hash == q)).length
      = (bookmarks.filter (fun b => b.hash == q)).length
        + (if hash = q then 1 else 0)
    ∧ (removeBookmark bookmarks q).filter (fun b => b.hash == q) = []
    ∧ ∀ b ∈ removeBookmark bookmarks q, b.hash ≠ q := by
  refine ⟨?_, ?_, ?_⟩
  · unfold addBookmark
    rw [List.filter_append]
    by_cases hh : hash = q <;> simp [hh]
  · unfold removeBookmark
    rw [List.filter_filter]
    have : (fun b : Bookmark => b.hash == q && !(b.hash == q)) = fun _ => false := by
      funext b
      rcases hv : b.hash == q <;> simp [hv]
    rw [this]
    exact List.filter_false _
  · intro b hb
    unfold removeBookmark at hb
    have := (List.mem_filter.mp hb).2
    simpa using this

/-- Claim C9 (counterexample): adding a bookmark for an already-bookmarked
hash produces a second entry with that hash. -/
theorem claim_c9_counterexample :
    ((addBookmark (addBookmark [] "A" "aabb" 0) "B" "aabb" 1).filter
        (fun b => b.hash == "aabb")).length = 2 := by
  decide

/-! Claim C3: the pending-request correlator. -/

/-- Claim C3 (code evaluation at the failing input): `request_page`
records the pending entry under the bracket-stripped hash `aabbccdd` and
keeps at most one entry per peer, but an inbound HTML-page response from
that very peer is looked up under `prettyhexrep`'s bracketed form
`<aabbccdd>`, so the pending entry is NOT cleared. -/
theorem claim_c3_bug :
    handleMessagePending (requestPagePending [] "aabbccdd" "about.html" 0)
        ⟨"aabbccdd", "Serving: about.html", [(10, FieldValue.str "<html>x</html>")]⟩
      = requestPagePending [] "aabbccdd" "about.html" 0
    ∧ dictContains (requestPagePending [] "aabbccdd" "about.html" 0) "aabbccdd" = true
    ∧ requestPagePending [] "aabbccdd" "about.html" 0 ≠ []
    ∧ (requestPagePending (requestPagePending [] "aabbccdd" "about.html" 0)
        "aabbccdd" "help.html" 5).length = 1 := by
  refine ⟨?_, ?_, ?_, ?_⟩ <;> decide

/-! Claim C8: the page listing is sorted and filtered by supported
extension. -/

/-- Claim C8: for every state of the pages directory, `_get_page_list`
returns a lexicographically sorted permutation of exactly those directory
entries whose case-lowered extension is a key of the
supported-extension table, and no others. -/
theorem claim_c8_page_list (entries : List String) :
    List.Sorted (fun a b => a ≤ b) (getPageList entries)
    ∧ List.Perm (getPageList entries) (entries.filter (fun f => isSupportedExt f))
    ∧ ∀ f, f ∈ getPageList entries ↔
        (f ∈ entries
          ∧ pyLower (splitextExt f) ∈ supported_extensions.map (fun e => e.1)) := by
  refine ⟨?_, ?_, ?_⟩
  · exact List.sorted_insertionSort _ _
  · exact List.perm_insertionSort _ _
  · intro f
    unfold getPageList
    rw [(List.perm_insertionSort _ _).mem_iff, List.mem_filter]
    unfold isSupportedExt
    rw [List.elem_iff]

/-! Claim C7: the page-list parser. -/

theorem stripChars_decomp (l : List Char) :
    ∃ w₁ w₂, l = w₁ ++ stripChars l ++ w₂
      ∧ (∀ c ∈ w₁, isPySpace c = true) ∧ (∀ c ∈ w₂, isPySpace c = true) := by
  refine ⟨l.takeWhile isPySpace,
    ((l.dropWhile isPySpace).reverse.takeWhile isPySpace).reverse, ?_, ?_, ?_⟩
  · conv_lhs => rw [← List.takeWhile_append_dropWhile isPySpace l]
    rw [List.append_assoc]
    congr 1
    conv_lhs => rw [← List.reverse_reverse (List.dropWhile isPySpace l),
      ← List.takeWhile_append_dropWhile isPySpace (List.dropWhile isPySpace l).reverse]
    rw [List.reverse_append]
    rfl
  · exact fun c hc => List.mem_takeWhile_imp hc
  · intro c hc
    rw [List.mem_reverse] at hc
    exact List.mem_takeWhile_imp hc

theorem stripChars_space_prefix (w l : List Char)
    (hw : ∀ c ∈ w, isPySpace c = true) :
    stripChars (w ++ l) = stripChars l := by
  unfold stripChars
  rw [List.dropWhile_append, List.dropWhile_eq_nil_iff.mpr hw]
  simp

theorem takeWhile_append_all (p : Char → Bool) (l₁ l₂ : List Char)
    (h : ∀ a ∈ l₁, p a = true) :
    List.takeWhile p (l₁ ++ l₂) = l₁ ++ List.takeWhile p l₂ := by
  have hx : List.takeWhile p l₁ = l₁ := List.takeWhile_eq_self_iff.mpr h
  rw [List.takeWhile_append, if_pos (by rw [hx])]

theorem takeWhile_append_stop (p : Char → Bool) (l₁ l₂ : List Char)
    (h : ∃ a ∈ l₁, p a = false) :
    List.takeWhile p (l₁ ++ l₂) = List.takeWhile p l₁ := by
  induction l₁ with
  | nil =>
    rcases h with ⟨a, ha, _⟩
    cases ha
  | cons c t ih =>
    rcases hv : p c with _ | _
    · simp [List.takeWhile_cons, hv]
    · rcases h with ⟨a, ha, hpa⟩
      rcases List.mem_cons.mp ha with rfl | hat
      · rw [hv] at hpa; cases hpa
      · simp [List.takeWhile_cons, hv, ih ⟨a, hat, hpa⟩]

theorem containsChars_single (c : Char) :
    ∀ l : List Char, containsChars [c] l = l.any (fun d => c == d) := by
  intro l
  induction l with
  | nil => rfl
  | cons d t ih => simp [containsChars, List.isPrefixOf, ih]

theorem any_beq_false_of_spaces (c : Char) (hc : isPySpace c = false)
    (w : List Char) (hw : ∀ d ∈ w, isPySpace d = true) :
    w.any (fun d => c == d) = false := by
  rcases hv : w.any (fun d => c == d) with _ | _
  · rfl
  · rcases List.any_eq_true.mp hv with ⟨d, hd, hcd⟩
    have he : c = d := by simpa using hcd
    have := hw d hd
    rw [← he] at this
    rw [this] at hc
    cases hc

theorem containsChars_single_strip (c : Char) (l : List Char)
    (hc : isPySpace c = false) :
    containsChars [c] (stripChars l) = containsChars [c] l := by
  obtain ⟨w₁, w₂, heq, h1, h2⟩ := stripChars_decomp l
  rw [containsChars_single, containsChars_single]
  conv_rhs => rw [heq]
  rw [List.append_assoc, List.any_append, List.any_append,
    any_beq_false_of_spaces c hc w₁ h1, any_beq_false_of_spaces c hc w₂ h2]
  simp

theorem strip_takeWhile_strip (l : List Char)
    (hpar : containsChars ['('] l = true) :
    stripChars ((stripChars l).takeWhile (fun c => c != '('))
      = stripChars (l.takeWhile (fun c => c != '(')) := by
  obtain ⟨w₁, w₂, heq, h1, h2⟩ := stripChars_decomp l
  have hparen_strip : containsChars ['('] (stripChars l) = true := by
    rw [containsChars_single_strip '(' l (by decide)]
    exact hpar
  have hex : ∃ a ∈ stripChars l, (a != '(') = false := by
    rw [containsChars_single] at hparen_strip
    rcases List.any_eq_true.mp hparen_strip with ⟨d, hd, hdq⟩
    have hd' : d = '(' := by
      have : ('(' : Char) = d := by simpa using hdq
      exact this.symm
    exact ⟨d, hd, by simp [hd']⟩
  have hw1q : ∀ a ∈ w₁, (a != '(') = true := by
    intro a ha
    have hsp := h1 a ha
    have hne : a ≠ '(' := by
      intro he
      rw [he] at hsp
      exact absurd hsp (by decide)
    simp [hne]
  conv_rhs => rw [heq]
  rw [List.append_assoc, takeWhile_append_all _ w₁ _ hw1q,
    takeWhile_append_stop _ (stripChars l) w₂ hex,
    stripChars_space_prefix w₁ _ h1]

theorem parsePageLineStep_eq (pages : List String) (lineChars : List Char) :
    parsePageLineStep pages lineChars
      = pages ++ (specLinePageName ⟨lineChars⟩).toList := by
  unfold parsePageLineStep specLinePageName
  simp only [pyStrip, pyStartsWith, pyContains]
  by_cases hg : (['['].isPrefixOf (stripChars lineChars)
      && containsChars [']'] (stripChars lineChars)) = true
  · rw [if_pos hg, if_pos hg]
    rcases hsp : splitOnceChars [']'] (stripChars lineChars) with _ | ⟨a, rest⟩
    · simp
    · simp only [hsp]
      rw [containsChars_single_strip '(' rest (by decide)]
      by_cases hp : containsChars ['('] rest = true
      · rw [if_pos hp, if_pos hp, strip_takeWhile_strip rest hp]
        by_cases hnc :
            (stripChars (List.takeWhile (fun c => c != '(') rest)).isEmpty = true
        · rw [if_pos hnc]
          have hmk : ({ data := stripChars (List.takeWhile (fun c => c != '(') rest) }
              : String) = "" := by
            have := List.isEmpty_iff.mp hnc
            rw [this]
          rw [if_pos hmk]
          simp
        · rw [if_neg hnc]
          have hmk : ({ data := stripChars (List.takeWhile (fun c => c != '(') rest) }
              : String) ≠ "" := by
            intro he
            apply hnc
            apply List.isEmpty_iff.mpr
            simpa using congrArg String.data he
          rw [if_neg hmk]
          simp
      · rw [if_neg hp, if_neg hp]
        simp
  · rw [if_neg hg, if_neg hg]
    simp

theorem foldl_parseStep (ls : List (List Char)) :
    ∀ acc : List String,
      ls.foldl parsePageLineStep acc
        = acc ++ ls.filterMap (fun l => specLinePageName ⟨l⟩) := by
  induction ls with
  | nil => intro acc; simp
  | cons x xs ih =>
    intro acc
    rw [List.foldl_cons, parsePageLineStep_eq, ih]
    rcases h : specLinePageName ⟨x⟩ with _ | n <;>
      simp [List.filterMap_cons, h]

theorem specLinePageName_ne_empty {r p : String}
    (h : specLinePageName r = some p) : p ≠ "" := by
  simp only [specLinePageName] at h
  split at h
  · split at h
    · split at h
      · split at h
        · cases h
        · rename_i hne
          rw [Option.some.injEq] at h
          rw [← h]
          exact hne
      · cases h
    · cases h
  · cases h

/-- Claim C7: the client's list parser returns exactly the non-empty page
names obtained line by line, in encounter order, by the spec's procedure
(trim the line, require a leading `[` and a `]`, split once on `]` for
the descriptor, and when the descriptor contains `(` take the trimmed
part before `(`); lines of any other shape contribute nothing, and every
returned name is non-empty. -/
theorem claim_c7_list_parse (text : String) :
    parsePageList text
      = (splitChars ['\n'] text.data).filterMap (fun l => specLinePageName ⟨l⟩)
    ∧ ∀ p ∈ parsePageList text, p ≠ "" := by
  have hmain : parsePageList text
      = (splitChars ['\n'] text.data).filterMap (fun l => specLinePageName ⟨l⟩) := by
    unfold parsePageList
    rw [foldl_parseStep]
    simp
  refine ⟨hmain, ?_⟩
  intro p hp
  rw [hmain] at hp
  rcases List.mem_filterMap.mp hp with ⟨l, _, hl⟩
  exact specLinePageName_ne_empty hl

/-- Claim C7 (witness): the parser equals the spec procedure on a concrete
two-entry listing, and the concrete name it returns is non-empty. -/
theorem claim_c7_witness :
    parsePageList "[1] about.html (1KB)\nplain line\n[2] notes.txt (3B)"
      = (splitChars ['\n']
          ("[1] about.html (1KB)\nplain line\n[2] notes.txt (3B)" : String).data).filterMap
          (fun l => specLinePageName ⟨l⟩)
    ∧ "about.html" ≠ "" :=
  ⟨(claim_c7_list_parse "[1] about.html (1KB)\nplain line\n[2] notes.txt (3B)").1,
   (claim_c7_list_parse "[1] about.html (1KB)\nplain line\n[2] notes.txt (3B)").2
     "about.html" (by decide)⟩

end RWeb
